import Mathlib

/-!
Shallow embedding of the `finest-hosting` browser utility scripts.

The JavaScript sources are embedded as executable Lean definitions:

* strings are `String` / `List Char`, and the fixed regular expressions of
  `FormatHelper` are hand-rolled deterministic matchers (each matcher is
  documented with the regex it implements; all regexes involved are anchored
  and their alternation points are mutually exclusive, so no backtracking is
  needed and the deterministic matchers recognise exactly the regex language);
* JavaScript numbers are idealised as `ℚ` (the claims under study concern
  value plumbing, filtering, grouping and rounding, not IEEE-754 rounding
  of individual additions);
* `undefined` is `Option.none` at property-access boundaries, JSON-ish
  runtime values are the inductive `JVal`;
* fallible operations (network fetch, JSON parsing) are `Except` values.
-/

/-! ### JavaScript character classes and string primitives -/

/-- JavaScript whitespace as used by `String.prototype.trim` and `\s`
(ASCII part: space, tab, LF, CR, VT, FF; the exotic Unicode space code
points also accepted by JS never occur in the claims). -/
def jsIsWs (c : Char) : Bool :=
  c == ' ' || c == '\t' || c == '\n' || c == '\r' || c == '\x0b' || c == '\x0c'

/-- JS `String.prototype.trim` on character lists. -/
def jsTrim (l : List Char) : List Char :=
  ((l.dropWhile jsIsWs).reverse.dropWhile jsIsWs).reverse

/-- JS `String.prototype.split(sep)` for a one-character separator. -/
def splitChar (sep : Char) : List Char → List (List Char)
  | [] => [[]]
  | c :: rest =>
    if c == sep then [] :: splitChar sep rest
    else
      match splitChar sep rest with
      | [] => [[c]]
      | g :: gs => (c :: g) :: gs

/-- JS `String.prototype.lastIndexOf(c)` (auxiliary, carrying the index). -/
def lastIndexOfAux (c : Char) : List Char → Nat → Option Nat
  | [], _ => none
  | x :: rest, i =>
    match lastIndexOfAux c rest (i + 1) with
    | some j => some j
    | none => if x == c then some i else none

/-- JS `String.prototype.lastIndexOf(c)`: `none` models the result `-1`. -/
def lastIndexOfChar (c : Char) (l : List Char) : Option Nat :=
  lastIndexOfAux c l 0

/-! ### The shared regular expressions of `FormatHelper`

`numSplit` parses the anchored-left number shape `\d+(\.\d+)?` greedily and
returns the matched characters together with the rest of the input; it is the
common core of both `FormatHelper` revisions' number regexes. -/

/-- Greedy parse of `\d+(\.\d+)?` at the start of `l`; returns
`some (matched, rest)`, or `none` when there is no leading digit. -/
def numSplit (l : List Char) : Option (List Char × List Char) :=
  let ds := l.takeWhile Char.isDigit
  let r := l.dropWhile Char.isDigit
  if ds.isEmpty then none
  else
    match r with
    | c :: r2 =>
      if c == '.' then
        let fs := r2.takeWhile Char.isDigit
        if fs.isEmpty then some (ds, r)
        else some (ds ++ c :: fs, r2.dropWhile Char.isDigit)
      else some (ds, r)
    | [] => some (ds, [])

/-- `[A-Z]{3}` against the whole list. -/
def isCCC : List Char → Bool
  | [a, b, c] => a.isUpper && b.isUpper && c.isUpper
  | _ => false

/-- `[A-Z]{3}/[A-Z]{3}` against the whole list. -/
def isCCCPair : List Char → Bool
  | [a, b, c, s, d, e, f] =>
    a.isUpper && b.isUpper && c.isUpper && s == '/' &&
      d.isUpper && e.isUpper && f.isUpper
  | _ => false

/-- The tail `:[A-Z]{3}$` of the v1.0 decimal regex. -/
def colonTailDec : List Char → Bool
  | c :: rest => c == ':' && isCCC rest
  | [] => false

/-- The tail `:[A-Z]{3}/[A-Z]{3}$` of the v1.0 exchange regex. -/
def colonTailExch : List Char → Bool
  | c :: rest => c == ':' && isCCCPair rest
  | [] => false

/-- `^\d+(\.\d+)?\:[A-Z]{3}$` (v1.0 `validateDecimal` / `normalizeDecimal`). -/
def matchColonDec (l : List Char) : Bool :=
  match numSplit l with
  | some (_, r) => colonTailDec r
  | none => false

/-- `^\d+(\.\d+)?\:[A-Z]{3}\/[A-Z]{3}$` (v1.0 `validateExchange` /
`normalizeExchange`). -/
def matchColonExch (l : List Char) : Bool :=
  match numSplit l with
  | some (_, r) => colonTailExch r
  | none => false

/-- `^\d+(\.\d+)?$` (`validateFloat` of both revisions, and the number part
of the v1.0 colon regexes). -/
def matchUNum (l : List Char) : Bool :=
  match numSplit l with
  | some (_, []) => true
  | _ => false

/-- `^-?\d+(\.\d+)?$` (the numeric-string test in `parsePortfolioItems`). -/
def matchSignedNum : List Char → Bool
  | [] => false
  | c :: r => if c == '-' then matchUNum r else matchUNum (c :: r)

/-- `^-?\d+(\.\d{1,6})?$` (the number regex of the v2.0 validators). -/
def matchNumV2 (l : List Char) : Bool :=
  let l' := match l with
    | c :: r => if c == '-' then r else l
    | [] => l
  let ds := l'.takeWhile Char.isDigit
  let r := l'.dropWhile Char.isDigit
  !ds.isEmpty &&
    (r.isEmpty ||
      match r with
      | c :: r2 => c == '.' && 1 ≤ r2.length && r2.length ≤ 6 && r2.all Char.isDigit
      | [] => false)

/-- `^\d{4}-\d{2}-\d{2}$` (`validateDate`, identical in both revisions). -/
def matchDate : List Char → Bool
  | [y1, y2, y3, y4, h1, m1, m2, h2, d1, d2] =>
    y1.isDigit && y2.isDigit && y3.isDigit && y4.isDigit &&
      h1 == '-' && m1.isDigit && m2.isDigit && h2 == '-' &&
      d1.isDigit && d2.isDigit
  | _ => false

/-- `^\d{4}-\d{2}-\d{2} ([01]\d|2[0-3]):([0-5]\d):([0-5]\d)[+-]\d{4}$`
(`validateDateTime`, identical in both revisions). -/
def matchDateTime : List Char → Bool
  | [y1, y2, y3, y4, s1, mo1, mo2, s2, d1, d2, sp, h1, h2, c1, mi1, mi2, c2,
     se1, se2, sg, z1, z2, z3, z4] =>
    y1.isDigit && y2.isDigit && y3.isDigit && y4.isDigit &&
      s1 == '-' && mo1.isDigit && mo2.isDigit && s2 == '-' &&
      d1.isDigit && d2.isDigit && sp == ' ' &&
      (((h1 == '0' || h1 == '1') && h2.isDigit) ||
        (h1 == '2' && ('0' ≤ h2 && h2 ≤ '3'))) &&
      c1 == ':' && ('0' ≤ mi1 && mi1 ≤ '5') && mi2.isDigit &&
      c2 == ':' && ('0' ≤ se1 && se1 ≤ '5') && se2.isDigit &&
      (sg == '+' || sg == '-') &&
      z1.isDigit && z2.isDigit && z3.isDigit && z4.isDigit
  | _ => false

/-- The group-extracting match of `^(\d+(?:\.\d+)?)\s+([A-Z]{3})$` used by
v1.0 `normalizeDecimal`: on success returns the number group and the
three-letter currency group. -/
def spaceSplitDec (l : List Char) : Option (List Char × List Char) :=
  match numSplit l with
  | none => none
  | some (num, r) =>
    let ws := r.takeWhile jsIsWs
    let r2 := r.dropWhile jsIsWs
    if ws.isEmpty then none
    else if isCCC r2 then some (num, r2) else none

/-- The group-extracting match of `^(\d+(?:\.\d+)?)\s+([A-Z]{3}\/[A-Z]{3})$`
used by v1.0 `normalizeExchange`. -/
def spaceSplitExch (l : List Char) : Option (List Char × List Char) :=
  match numSplit l with
  | none => none
  | some (num, r) =>
    let ws := r.takeWhile jsIsWs
    let r2 := r.dropWhile jsIsWs
    if ws.isEmpty then none
    else if isCCCPair r2 then some (num, r2) else none

/-! ### `FormatHelper`, version 2.0 (`dataentry-manager.js` lines 7-80) -/

namespace FormatHelperV2

/-- v2.0 `validateDecimal`: splits at the last space of the *trimmed* value
(but slices the *original* value at that index, exactly as the source does),
then checks `^-?\d+(\.\d{1,6})?$` against the number part and `^[A-Z]{3}$`
against the currency part.  `if (!value) return false` is the empty-string
falsiness test. -/
def validateDecimal (value : String) : Bool :=
  let l := value.data
  if l.isEmpty then false
  else
    match lastIndexOfChar ' ' (jsTrim l) with
    | none => false
    | some i =>
      let number := jsTrim (l.take i)
      let currency := jsTrim (l.drop (i + 1))
      matchNumV2 number && isCCC currency

/-- v2.0 `validateExchange`: chooses `':'` as separator when present,
otherwise requires a space; splits into exactly two parts, splits the
currency part at `'/'` into exactly two parts, and checks
`^-?\d+(\.\d{1,6})?$` and `^[A-Z]{3}$` respectively.  No trimming. -/
def validateExchange (value : String) : Bool :=
  let l := value.data
  if l.isEmpty then false
  else if !(l.contains ':') && !(l.contains ' ') then false
  else
    let sep : Char := if l.contains ':' then ':' else ' '
    match splitChar sep l with
    | [number, currencies] =>
      if !(currencies.contains '/') then false
      else
        match splitChar '/' currencies with
        | [c1, c2] => matchNumV2 number && isCCC c1 && isCCC c2
        | _ => false
    | _ => false

/-- v2.0 `validateFloat`. -/
def validateFloat (value : String) : Bool :=
  if value.data.isEmpty then false else matchUNum (jsTrim value.data)

/-- v2.0 `validateDate`. -/
def validateDate (value : String) : Bool :=
  if value.data.isEmpty then false else matchDate (jsTrim value.data)

/-- v2.0 `validateDateTime`. -/
def validateDateTime (value : String) : Bool :=
  if value.data.isEmpty then false else matchDateTime (jsTrim value.data)

end FormatHelperV2

/-! ### `FormatHelper`, version 1.0 (`dataentry-manager.js` lines 554-648) -/

namespace FormatHelperV1

/-- v1.0 `normalizeDecimal` on character lists: trim; if the colon regex
already matches return as is; else try `^(\d+(?:\.\d+)?)\s+([A-Z]{3})$` and
reassemble the groups around a colon; else return the trimmed value. -/
def normalizeDecimalL (l : List Char) : List Char :=
  let v := jsTrim l
  if matchColonDec v then v
  else
    match spaceSplitDec v with
    | some (num, ccc) => num ++ ':' :: ccc
    | none => v

/-- v1.0 `normalizeDecimal`. -/
def normalizeDecimal (value : String) : String :=
  String.mk (normalizeDecimalL value.data)

/-- v1.0 `normalizeExchange` on character lists. -/
def normalizeExchangeL (l : List Char) : List Char :=
  let v := jsTrim l
  if matchColonExch v then v
  else
    match spaceSplitExch v with
    | some (num, cp) => num ++ ':' :: cp
    | none => v

/-- v1.0 `normalizeExchange`. -/
def normalizeExchange (value : String) : String :=
  String.mk (normalizeExchangeL value.data)

/-- v1.0 `validateDecimal`: a bare regex test of `^\d+(\.\d+)?\:[A-Z]{3}$`
(no trimming, no falsiness shortcut — the regex rejects `""` anyway). -/
def validateDecimal (value : String) : Bool :=
  matchColonDec value.data

/-- v1.0 `validateExchange`: `^\d+(\.\d+)?\:[A-Z]{3}\/[A-Z]{3}$`. -/
def validateExchange (value : String) : Bool :=
  matchColonExch value.data

/-- v1.0 `validateFloat` (textually identical to v2.0's). -/
def validateFloat (value : String) : Bool :=
  if value.data.isEmpty then false else matchUNum (jsTrim value.data)

/-- v1.0 `validateDate` (textually identical to v2.0's). -/
def validateDate (value : String) : Bool :=
  if value.data.isEmpty then false else matchDate (jsTrim value.data)

/-- v1.0 `validateDateTime` (textually identical to v2.0's). -/
def validateDateTime (value : String) : Bool :=
  if value.data.isEmpty then false else matchDateTime (jsTrim value.data)

end FormatHelperV1

/-! ### JavaScript runtime values

`JVal` models the JSON-ish values flowing through the dashboard scripts;
`undefined` is represented by `Option.none` at property-access boundaries. -/

inductive JVal : Type where
  | num (q : ℚ)
  | str (s : String)
  | bool (b : Bool)
  | null
  | arr (elems : List JVal)
  | obj (fields : List (String × JVal))

/-- JS property read `v[key]` on an object value; `none` is `undefined`.
Fields built by our embedding never contain duplicate keys for distinct
source properties, and `objSet` updates in place, matching JS object
semantics. -/
def getAttr : JVal → String → Option JVal
  | JVal.obj fields, key => (fields.find? (fun p => p.1 == key)).map (fun p => p.2)
  | _, _ => none

/-- JS property write `o[key] = v`: overwrite in place when the key exists
(keeping its position, as JS objects do), otherwise append. -/
def objSet (fields : List (String × JVal)) (key : String) (v : JVal) :
    List (String × JVal) :=
  match fields with
  | [] => [(key, v)]
  | (k, x) :: rest =>
    if k == key then (k, v) :: rest else (k, x) :: objSet rest key v

/-- JS truthiness of a value (`undefined` handled by `truthyO`). -/
def truthy : JVal → Bool
  | JVal.num q => !(q == 0)
  | JVal.str s => !s.isEmpty
  | JVal.bool b => b
  | JVal.null => false
  | JVal.arr _ => true
  | JVal.obj _ => true

/-- JS truthiness of a possibly-`undefined` value. -/
def truthyO : Option JVal → Bool
  | some v => truthy v
  | none => false

/-- Digit run to a natural number. -/
def digitsToNat (l : List Char) : Nat :=
  l.foldl (fun n c => 10 * n + (c.toNat - 48)) 0

/-- `10 ^ e` over `ℚ` for a signed exponent, written without `zpow` so that
it stays kernel-friendly. -/
def pow10 (e : Int) : ℚ :=
  match e with
  | Int.ofNat n => ((10 ^ n : ℕ) : ℚ)
  | Int.negSucc n => 1 / ((10 ^ (n + 1) : ℕ) : ℚ)

/-- JS `parseFloat` on a string, idealised over `ℚ`: skip leading
whitespace, optional sign, decimal digits with optional fraction, optional
well-formed exponent; trailing junk is ignored; `none` models `NaN`.
(The `Infinity` literals, not representable in `ℚ`, are not modelled; no
code path under study produces them.) -/
def jsParseFloat (s : String) : Option ℚ :=
  let l := s.data.dropWhile jsIsWs
  let (sign, l1) : ℚ × List Char :=
    match l with
    | c :: r => if c == '-' then (-1, r) else if c == '+' then (1, r) else (1, l)
    | [] => (1, l)
  let ip := l1.takeWhile Char.isDigit
  let r1 := l1.dropWhile Char.isDigit
  let (fp, r2) : List Char × List Char :=
    match r1 with
    | c :: r => if c == '.' then (r.takeWhile Char.isDigit, r.dropWhile Char.isDigit)
                else ([], r1)
    | [] => ([], r1)
  if ip.isEmpty && fp.isEmpty then none
  else
    let mant : ℚ := (digitsToNat ip : ℚ) + (digitsToNat fp : ℚ) / ((10 ^ fp.length : ℕ) : ℚ)
    let exp : Int :=
      match r2 with
      | c :: r =>
        if c == 'e' || c == 'E' then
          match r with
          | d :: r' =>
            if d == '-' then
              (if (r'.takeWhile Char.isDigit).isEmpty then 0
               else -(digitsToNat (r'.takeWhile Char.isDigit) : Int))
            else if d == '+' then
              (if (r'.takeWhile Char.isDigit).isEmpty then 0
               else (digitsToNat (r'.takeWhile Char.isDigit) : Int))
            else
              (if (r.takeWhile Char.isDigit).isEmpty then 0
               else (digitsToNat (r.takeWhile Char.isDigit) : Int))
          | [] => 0
        else 0
      | [] => 0
    some (sign * mant * pow10 exp)

/-- JS `parseFloat(x)` for a possibly-`undefined` runtime value: numbers
parse to themselves (a finite JS number round-trips through its string
form), strings go through `jsParseFloat`, and `null`, `undefined`, booleans
and plain objects stringify to text with no leading number, hence `NaN`.
(An array stringifies to its joined elements and may re-parse — e.g.
`parseFloat([5]) = 5`; that exotic corner is not modelled and no claim
touches it.) -/
def parseFloatO : Option JVal → Option ℚ
  | some (JVal.num q) => some q
  | some (JVal.str s) => jsParseFloat s
  | _ => none

/-- `Number.prototype.toFixed(1)` followed by `parseFloat`, as in the `'%'`
derivation: round to one decimal place, ties away from zero (ECMAScript
`toFixed` rounds the magnitude with ties toward the larger digit string). -/
def round1 (q : ℚ) : ℚ :=
  if q < 0 then -((Rat.floor (-q * 10 + 1 / 2) : ℚ) / 10)
  else (Rat.floor (q * 10 + 1 / 2) : ℚ) / 10

/-! ### `parsePortfolioItems` (both revisions)

`dashboard-shared.js` lines 9-51 and `src/unnamed/part_000` lines 3-61. -/

/-- `Object.keys(details)` enumeration with values: object fields in
insertion order; for an array, the index keys `"0"`, `"1"`, … (JS
`Object.keys` on an array yields its indices).  Primitives have no
enumerable own keys here. -/
def fieldsOf : JVal → List (String × JVal)
  | JVal.obj fields => fields
  | JVal.arr elems => elems.enum.map (fun p => (toString p.1, p.2))
  | _ => []

/-- The per-value conversion inside `parseItem` (`dashboard-shared.js`
lines 16-21): a string whose trimmed form matches `^-?\d+(\.\d+)?$` is
replaced by its `parseFloat` (which the regex guarantees to be a number;
`getD 0` is therefore never exercised). -/
def convVal (v : JVal) : JVal :=
  match v with
  | JVal.str s =>
    if matchSignedNum (jsTrim s.data) then JVal.num ((jsParseFloat s).getD 0) else v
  | _ => v

/-- `parseItem` of `dashboard-shared.js`: `{ Ticker: symbol }` extended with
the converted detail fields (only truthy object-typed details contribute
fields: `details && typeof details === 'object'`; `null` is falsy). -/
def parseItem (symbol : JVal) (details : JVal) : JVal :=
  JVal.obj ((fieldsOf details).foldl
    (fun acc p => objSet acc p.1 (convVal p.2)) [("Ticker", symbol)])

/-- `parseItem` of `part_000`: identical except that the key
`id_account` is exempted from the numeric conversion. -/
def parseItemP0 (symbol : JVal) (details : JVal) : JVal :=
  JVal.obj ((fieldsOf details).foldl
    (fun acc p =>
      objSet acc p.1 (if p.1 == "id_account" then p.2 else convVal p.2))
    [("Ticker", symbol)])

/-- The `'%'` derivation loop body (identical in both revisions,
`dashboard-shared.js` lines 40-48 / `part_000` lines 50-58): when both
`M/P` and `cost_amount` are numbers and `cost_amount !== 0`, set `'%'` to
`parseFloat(((mp / cost) * 100).toFixed(1))`; otherwise set `'%'` to
`null`.  (Items reaching this loop are always objects; the catch-all
branch is unreachable in the source.) -/
def derivePercent : JVal → JVal
  | JVal.obj fields =>
    match getAttr (JVal.obj fields) "M/P", getAttr (JVal.obj fields) "cost_amount" with
    | some (JVal.num m), some (JVal.num c) =>
      if c = 0 then JVal.obj (objSet fields "%" JVal.null)
      else JVal.obj (objSet fields "%" (JVal.num (round1 (m / c * 100))))
    | _, _ => JVal.obj (objSet fields "%" JVal.null)
  | v => v

/-- `typeof v === 'object'` (true for objects, arrays and `null`). -/
def isObjectType : JVal → Bool
  | JVal.obj _ => true
  | JVal.arr _ => true
  | JVal.null => true
  | _ => false

/-- One tuple entry of the array-of-tuples branch: an array entry of length
`≥ lo` becomes `parseItem(entry[0], entry[1])`; other entries are skipped.
(JS would also admit a string entry via its `length` property — its two
leading characters would then be used — or an object with a numeric
`length` field; those exotic entries are not modelled and no claim
depends on them.) -/
def tupleEntry (pi : JVal → JVal → JVal) (lo : Nat) (entry : JVal) : Option JVal :=
  match entry with
  | JVal.arr el =>
    if lo ≤ el.length then some (pi (el.headD JVal.null) (el.getD 1 JVal.null))
    else none
  | _ => none

/-- `parsePortfolioItems` of `dashboard-shared.js` (ver 1.0 header, the
`src/js` revision): array inputs keep exactly the entries that are arrays
of length exactly 2; object inputs map every key; `null` throws
(`Object.keys(null)` raises a `TypeError`), modelled as `Except.error`;
other primitives yield `[]`.  Every collected item then passes through the
`'%'` derivation. -/
def parsePortfolioItems (raw : JVal) : Except Unit (List JVal) :=
  match raw with
  | JVal.arr entries =>
    Except.ok ((entries.filterMap (fun entry =>
      match entry with
      | JVal.arr el =>
        if el.length == 2 then some (parseItem (el.headD JVal.null) (el.getD 1 JVal.null))
        else none
      | _ => none)).map derivePercent)
  | JVal.null => Except.error ()
  | JVal.obj fields =>
    Except.ok ((fields.map (fun p => parseItem (JVal.str p.1) p.2)).map derivePercent)
  | _ => Except.ok []

/-- `parsePortfolioItems` of `part_000`: branch 1 (first element is an
array) collects tuple entries of length `≥ 2`; branch 2 (non-empty array
whose first element is otherwise of object type, i.e. an object or `null`)
returns the input array *unchanged* — the early `return rawPortfolio`
skips the `'%'` derivation; branch 3 (non-null object) maps every key.
All other inputs yield `[]`. -/
def parsePortfolioItemsP0 (raw : JVal) : List JVal :=
  match raw with
  | JVal.arr entries =>
    match entries.head? with
    | some (JVal.arr _) =>
      (entries.filterMap (tupleEntry parseItemP0 2)).map derivePercent
    | some v => if isObjectType v then entries else []
    | none => []
  | JVal.obj fields =>
    (fields.map (fun p => parseItemP0 (JVal.str p.1) p.2)).map derivePercent
  | _ => []

/-! ### `getGroupedData` (both revisions)

`dashboard-shared.js` lines 94-130 and `part_000` lines 108-144.  The two
revisions differ in one character class: the zero/invalid filter keeps
`val > 0` in `dashboard-shared.js` and `val !== 0` in `part_000`. -/

/-- JS string coercion of a value used as an object property key or label.
Numbers are rendered via `ℚ`'s `toString` (the exact ECMAScript
number-to-string algorithm is not reproduced; no claim depends on the
rendering), arrays would join their elements (simplified to `""`). -/
def jsToPropKey : JVal → String
  | JVal.str s => s
  | JVal.num q => toString q
  | JVal.bool b => if b then "true" else "false"
  | JVal.null => "null"
  | JVal.arr _ => ""
  | JVal.obj _ => "[object Object]"

/-- Key coercion of a possibly-`undefined` value (`undefined` coerces to
the key `"undefined"`). -/
def jsPropKeyO : Option JVal → String
  | some v => jsToPropKey v
  | none => "undefined"

/-- The `active` filter of `dashboard-shared.js` (line 95-98):
`!isNaN(parseFloat(x[valueKey])) && parseFloat(x[valueKey]) > 0`. -/
def activeItems (portfolioData : List JVal) (valueKey : String) : List JVal :=
  portfolioData.filter (fun x =>
    match parseFloatO (getAttr x valueKey) with
    | some v => decide (0 < v)
    | none => false)

/-- The `active` filter of `part_000` (line 109-112):
`!isNaN(parseFloat(x[valueKey])) && parseFloat(x[valueKey]) !== 0`. -/
def activeItemsP0 (portfolioData : List JVal) (valueKey : String) : List JVal :=
  portfolioData.filter (fun x =>
    match parseFloatO (getAttr x valueKey) with
    | some v => decide (v ≠ 0)
    | none => false)

/-- The label under which an item is accumulated (lines 106-111 of the
grouping branch): look the item's `id_instrument` up in the classification
map; a missing or falsy classification, or a falsy classification value,
falls back to `"Other"`. -/
def labelOf (classificationMap : JVal) (groupingKey : String) (item : JVal) : String :=
  let id := getAttr item "id_instrument"
  let cls := getAttr classificationMap (jsPropKeyO id)
  let labelKey : Option JVal :=
    match cls with
    | some c => if truthy c then getAttr c groupingKey else some JVal.null
    | none => some JVal.null
  if truthyO labelKey then jsPropKeyO labelKey else "Other"

/-- `if (!grp[label]) grp[label] = 0; grp[label] += v` on an
insertion-ordered object: add to the entry in place when the key exists,
otherwise append it.  (When the stored value is `0` the source resets it
to `0` first — a no-op.) -/
def upsertAdd : List (String × ℚ) → String → ℚ → List (String × ℚ)
  | [], label, v => [(label, v)]
  | (k, x) :: rest, label, v =>
    if k == label then (k, x + v) :: rest else (k, x) :: upsertAdd rest label v

/-- The accumulation loop of the grouping branch.  `getD 0` is never
exercised: the loop only sees items that passed the `isNaN` filter. -/
def buildGroups (classificationMap : JVal) (groupingKey valueKey : String)
    (items : List JVal) : List (String × ℚ) :=
  items.foldl
    (fun grp it =>
      upsertAdd grp (labelOf classificationMap groupingKey it)
        ((parseFloatO (getAttr it valueKey)).getD 0))
    []

/-- Stable insertion of `x` into a list sorted descending by `f`. -/
def insertDesc (f : α → ℚ) (x : α) : List α → List α
  | [] => [x]
  | y :: ys => if f y ≤ f x then x :: y :: ys else y :: insertDesc f x ys

/-- JS `Array.prototype.sort` with the comparator `(a, b) => f(b) - f(a)`:
a stable descending sort (ECMAScript sort is required to be stable, and a
consistent comparator makes its output the stable descending order,
whatever algorithm the engine uses). -/
def sortDescBy (f : α → ℚ) : List α → List α
  | [] => []
  | x :: xs => insertDesc f x (sortDescBy f xs)

/-- The label of the no-grouping branch:
`x.instrument_description || x.Ticker` (coerced to display text). -/
def elseLabel (x : JVal) : String :=
  let d := getAttr x "instrument_description"
  if truthyO d then jsPropKeyO d else jsPropKeyO (getAttr x "Ticker")

/-- `getGroupedData` of `dashboard-shared.js`: filter, then either group by
the classification label and sort the `(label, sum)` entries descending by
value (`Object.entries(grp).sort((a,b) => b[1]-a[1])`), or — for a falsy
(empty) grouping key — list the individual items sorted descending.  (In
the no-grouping branch the source comparator coerces the raw attribute
with `Number`; our model reuses the parsed value, which agrees on every
item the filter lets through except exotic strings with trailing junk —
no claim touches that branch.) -/
def getGroupedData (portfolioData : List JVal) (classificationMap : JVal)
    (groupingKey valueKey : String) : List (String × ℚ) :=
  let active := activeItems portfolioData valueKey
  if groupingKey.isEmpty then
    (sortDescBy (fun x => (parseFloatO (getAttr x valueKey)).getD 0) active).map
      (fun x => (elseLabel x, (parseFloatO (getAttr x valueKey)).getD 0))
  else
    sortDescBy Prod.snd (buildGroups classificationMap groupingKey valueKey active)

/-- `getGroupedData` of `part_000` (lines 108-144): identical up to the
`val !== 0` filter. -/
def getGroupedDataP0 (portfolioData : List JVal) (classificationMap : JVal)
    (groupingKey valueKey : String) : List (String × ℚ) :=
  let active := activeItemsP0 portfolioData valueKey
  if groupingKey.isEmpty then
    (sortDescBy (fun x => (parseFloatO (getAttr x valueKey)).getD 0) active).map
      (fun x => (elseLabel x, (parseFloatO (getAttr x valueKey)).getD 0))
  else
    sortDescBy Prod.snd (buildGroups classificationMap groupingKey valueKey active)

/-! ### `CredentialsManager.getCredentials` (`src/unnamed/part_001` lines 21-50)

`URLSearchParams.get` returns the first value of a present parameter — the
empty string when the parameter is present with no value — and `null` when
absent; `localStorage.getItem` returns `null` for a missing key.  Both are
`Option String` here.  The `||` chains make the selection a *truthiness*
chain: an empty string falls through exactly like an absent one. -/

structure Credentials where
  username : String
  token : String
  language : String
  filter : String
deriving DecidableEq, Repr

/-- `URLSearchParams.get(k)` / `localStorage.getItem(k)` over an
association list (first occurrence wins). -/
def kvGet (store : List (String × String)) (k : String) : Option String :=
  (store.find? (fun p => p.1 == k)).map (fun p => p.2)

/-- One step of a JS `a || b` chain on a nullable string: keep `a` when it
is present and non-empty, otherwise fall through to `b`. -/
def jsOrStr (v : Option String) (next : String) : String :=
  match v with
  | some s => if s.isEmpty then next else s
  | none => next

/-- `CredentialsManager.getCredentials`, reduced to its return value: each
field is `urlParams.get(k) || localStorage.getItem(k) || default`.  (The
conditional `saveCredentials` pass-through mutates storage but not the
returned object; the claim under study concerns the returned values.) -/
def getCredentials (urlParams localStorage : List (String × String)) : Credentials :=
  { username := jsOrStr (kvGet urlParams "username") (jsOrStr (kvGet localStorage "username") "")
  , token := jsOrStr (kvGet urlParams "token") (jsOrStr (kvGet localStorage "token") "")
  , language := jsOrStr (kvGet urlParams "language") (jsOrStr (kvGet localStorage "language") "it_IT")
  , filter := jsOrStr (kvGet urlParams "filter") (jsOrStr (kvGet localStorage "filter") "") }

/-! ### The JSON loaders (claim C4)

A `fetch` either rejects (network error) or resolves to a response carrying
an HTTP status and a body whose `json()` may itself fail. -/

structure Response where
  ok : Bool
  status : Nat
  body : Except String JVal

/-- `DataEntryManager.loadConfiguration` of v2.0 (`dataentry-manager.js`
lines 102-123): await the three fetches (a rejection anywhere propagates;
which of several simultaneous rejections wins is scheduling-dependent in
JS — the model takes the leftmost), then parse the three bodies in order;
the `catch` block logs and *re-throws*, so every failure surfaces as
`Except.error`.  (v2.0 never consults `response.ok`.) -/
def loadConfiguration (structureRes mandatoryRes formatRes : Except String Response) :
    Except String (JVal × JVal × JVal) :=
  match structureRes with
  | Except.error e => Except.error e
  | Except.ok s =>
  match mandatoryRes with
  | Except.error e => Except.error e
  | Except.ok m =>
  match formatRes with
  | Except.error e => Except.error e
  | Except.ok f =>
    match s.body with
    | Except.error e => Except.error e
    | Except.ok sj =>
      match m.body with
      | Except.error e => Except.error e
      | Except.ok mj =>
        match f.body with
        | Except.error e => Except.error e
        | Except.ok fj => Except.ok (sj, mj, fj)

structure TMState where
  translations : JVal
  currentLang : String

/-- `TranslationManager.loadTranslations` (`translations.js` lines 5-33):
the `try` block throws on a rejected fetch, a non-`ok` status, or a JSON
parse failure; the `catch` block logs, clears `this.translations` and
returns `false` — it returns *normally* in every case, which the
`Except.ok` wrapping makes structurally evident. -/
def loadTranslationsTM (st : TMState) (lang : String)
    (fetchRes : Except String Response) : Except String (TMState × Bool) :=
  Except.ok
    (match fetchRes with
     | Except.error _ => ({ st with translations := JVal.obj [] }, false)
     | Except.ok r =>
       if !r.ok then ({ st with translations := JVal.obj [] }, false)
       else
         match r.body with
         | Except.error _ => ({ st with translations := JVal.obj [] }, false)
         | Except.ok j => ({ translations := j, currentLang := lang }, true))

structure DomText where
  title : String
  description : String
deriving DecidableEq, Repr

/-- Element text after an assignment `el.textContent = v` (an `undefined`
field stringifies to `"undefined"`). -/
def textOf (v : Option JVal) : String := jsPropKeyO v

/-- The standalone `loadTranslations` of `dataentry-utils.js` (lines
302-315): on any failure the `catch` block writes an error message into
the DOM and returns normally (`undefined`); on success it copies `title`
and `description`.  Again the result is always `Except.ok`. -/
def loadTranslationsUtils (fetchRes : Except String Response) :
    Except String DomText :=
  Except.ok
    (match fetchRes with
     | Except.error _ =>
       { title := "Errore nel caricamento delle traduzioni", description := "" }
     | Except.ok r =>
       if !r.ok then
         { title := "Errore nel caricamento delle traduzioni", description := "" }
       else
         match r.body with
         | Except.error _ =>
           { title := "Errore nel caricamento delle traduzioni", description := "" }
         | Except.ok j =>
           { title := textOf (getAttr j "title")
           , description := textOf (getAttr j "description") })

/-! ### Toolbox: `takeWhile`/`dropWhile`/`trim` lemmas -/

theorem takeWhile_append_all {p : Char → Bool} {a b : List Char}
    (ha : ∀ c ∈ a, p c = true)
    (hb : ∀ c, b.head? = some c → p c = false) :
    (a ++ b).takeWhile p = a := by
  induction a with
  | nil =>
    cases b with
    | nil => rfl
    | cons c t => simp [List.takeWhile_cons, hb c rfl]
  | cons x xs ih =>
    have hx : p x = true := ha x (List.mem_cons_self x xs)
    simp only [List.cons_append, List.takeWhile_cons, hx, if_true]
    have := ih (fun c hc => ha c (List.mem_cons_of_mem x hc))
    simp [this]

theorem dropWhile_append_all {p : Char → Bool} {a b : List Char}
    (ha : ∀ c ∈ a, p c = true)
    (hb : ∀ c, b.head? = some c → p c = false) :
    (a ++ b).dropWhile p = b := by
  induction a with
  | nil =>
    cases b with
    | nil => rfl
    | cons c t => simp [List.dropWhile_cons, hb c rfl]
  | cons x xs ih =>
    have hx : p x = true := ha x (List.mem_cons_self x xs)
    simp only [List.cons_append, List.dropWhile_cons, hx, if_true]
    exact ih (fun c hc => ha c (List.mem_cons_of_mem x hc))

theorem dropWhile_head_not {p : Char → Bool} {l : List Char} :
    ∀ c, (l.dropWhile p).head? = some c → p c = false := by
  induction l with
  | nil => intro c h; simp at h
  | cons x xs ih =>
    intro c h
    by_cases hp : p x = true
    · exact ih c (by simpa [List.dropWhile_cons, hp] using h)
    · have hx : p x = false := by revert hp; cases p x <;> simp
      rw [List.dropWhile_cons, hx] at h
      simp only [Bool.false_eq_true, if_false, List.head?_cons, Option.some.injEq] at h
      exact h ▸ hx

theorem dropWhile_eq_self_of_head {p : Char → Bool} {l : List Char}
    (h : ∀ c, l.head? = some c → p c = false) : l.dropWhile p = l := by
  cases l with
  | nil => rfl
  | cons x xs => simp [List.dropWhile_cons, h x rfl]

theorem dropWhile_getLast?_of_ne_nil {p : Char → Bool} {l : List Char}
    (h : l.dropWhile p ≠ []) : (l.dropWhile p).getLast? = l.getLast? := by
  induction l with
  | nil => simp at h
  | cons x xs ih =>
    by_cases hp : p x = true
    · rw [List.dropWhile_cons, hp, if_pos rfl] at h ⊢
      have hxs : xs ≠ [] := by
        intro he; rw [he] at h; exact h rfl
      rw [ih h]
      cases xs with
      | nil => exact absurd rfl hxs
      | cons y ys => simp [List.getLast?_cons_cons]
    · have hx : p x = false := by revert hp; cases p x <;> simp
      rw [List.dropWhile_cons, hx]
      simp

theorem jsTrim_eq_self {l : List Char}
    (h1 : ∀ c, l.head? = some c → jsIsWs c = false)
    (h2 : ∀ c, l.getLast? = some c → jsIsWs c = false) : jsTrim l = l := by
  unfold jsTrim
  rw [dropWhile_eq_self_of_head h1]
  rw [dropWhile_eq_self_of_head (by
    intro c hc
    exact h2 c (by rwa [List.head?_reverse] at hc))]
  exact List.reverse_reverse l

theorem jsTrim_head {l : List Char} :
    ∀ c, (jsTrim l).head? = some c → jsIsWs c = false := by
  intro c hc
  unfold jsTrim at hc
  rw [List.head?_reverse] at hc
  have hne : (((l.dropWhile jsIsWs).reverse).dropWhile jsIsWs) ≠ [] := by
    intro he; rw [he] at hc; simp at hc
  rw [dropWhile_getLast?_of_ne_nil hne] at hc
  rw [List.getLast?_reverse] at hc
  exact dropWhile_head_not c hc

theorem jsTrim_getLast {l : List Char} :
    ∀ c, (jsTrim l).getLast? = some c → jsIsWs c = false := by
  intro c hc
  unfold jsTrim at hc
  rw [List.getLast?_reverse] at hc
  exact dropWhile_head_not c hc

theorem jsTrim_idem (l : List Char) : jsTrim (jsTrim l) = jsTrim l :=
  jsTrim_eq_self jsTrim_head jsTrim_getLast

/-! ### Toolbox: character-class facts -/

theorem ws_not_digit {c : Char} (h : jsIsWs c = true) : c.isDigit = false := by
  simp only [jsIsWs, Bool.or_eq_true, beq_iff_eq] at h
  rcases h with ((((rfl | rfl) | rfl) | rfl) | rfl) | rfl <;> rfl

theorem ws_ne_dot {c : Char} (h : jsIsWs c = true) : (c == '.') = false := by
  simp only [jsIsWs, Bool.or_eq_true, beq_iff_eq] at h
  rcases h with ((((rfl | rfl) | rfl) | rfl) | rfl) | rfl <;> rfl

theorem ws_ne_colon {c : Char} (h : jsIsWs c = true) : (c == ':') = false := by
  simp only [jsIsWs, Bool.or_eq_true, beq_iff_eq] at h
  rcases h with ((((rfl | rfl) | rfl) | rfl) | rfl) | rfl <;> rfl

theorem digit_not_ws {c : Char} (h : c.isDigit = true) : jsIsWs c = false := by
  cases hw : jsIsWs c with
  | false => rfl
  | true => rw [ws_not_digit hw] at h; exact absurd h (by simp)

theorem upper_not_ws {c : Char} (h : c.isUpper = true) : jsIsWs c = false := by
  cases hw : jsIsWs c with
  | false => rfl
  | true =>
    simp only [jsIsWs, Bool.or_eq_true, beq_iff_eq] at hw
    rcases hw with ((((rfl | rfl) | rfl) | rfl) | rfl) | rfl <;> simp [Char.isUpper] at h

/-! ### Toolbox: the number-shape parser `numSplit` -/

/-- The language of the regex `\d+(\.\d+)?`: a non-empty digit run,
optionally followed by a dot and another non-empty digit run. -/
def IsUNum (num : List Char) : Prop :=
  ∃ ds fs, ds ≠ [] ∧ (∀ c ∈ ds, c.isDigit = true) ∧
    (num = ds ∨ (fs ≠ [] ∧ (∀ c ∈ fs, c.isDigit = true) ∧ num = ds ++ '.' :: fs))

theorem IsUNum_head {num : List Char} (h : IsUNum num) :
    ∃ d ds', num = d :: ds' ∧ d.isDigit = true := by
  obtain ⟨ds, fs, hne, hdig, hshape⟩ := h
  cases ds with
  | nil => exact absurd rfl hne
  | cons d ds' =>
    rcases hshape with rfl | ⟨-, -, rfl⟩
    · exact ⟨d, ds', rfl, hdig d (List.mem_cons_self d ds')⟩
    · exact ⟨d, ds' ++ '.' :: fs, by simp, hdig d (List.mem_cons_self d ds')⟩

/-- `numSplit` on a well-shaped number followed by a tail that can neither
extend the digit run nor open a fraction: the split is exactly at the
boundary. -/
theorem numSplit_append {num tail : List Char} (h : IsUNum num)
    (ht : ∀ c, tail.head? = some c → c.isDigit = false ∧ (c == '.') = false) :
    numSplit (num ++ tail) = some (num, tail) := by
  obtain ⟨ds, fs, hne, hdig, hshape⟩ := h
  have hnem : ds.isEmpty = false := by
    cases ds with
    | nil => exact absurd rfl hne
    | cons d t => rfl
  rcases hshape with hsh | ⟨hfne, hfdig, hsh⟩
  · rw [hsh]
    have htake : (ds ++ tail).takeWhile Char.isDigit = ds :=
      takeWhile_append_all hdig (fun c hc => (ht c hc).1)
    have hdrop : (ds ++ tail).dropWhile Char.isDigit = tail :=
      dropWhile_append_all hdig (fun c hc => (ht c hc).1)
    simp only [numSplit, htake, hdrop, hnem, Bool.false_eq_true, if_false]
    cases tail with
    | nil => rfl
    | cons c r2 => simp [(ht c rfl).2]
  · have hfnem : fs.isEmpty = false := by
      cases fs with
      | nil => exact absurd rfl hfne
      | cons d t => rfl
    rw [hsh]
    have hassoc : (ds ++ '.' :: fs) ++ tail = ds ++ '.' :: (fs ++ tail) := by simp
    have htake : (ds ++ '.' :: (fs ++ tail)).takeWhile Char.isDigit = ds :=
      takeWhile_append_all hdig (fun c hc => by
        simp only [List.head?_cons, Option.some.injEq] at hc
        subst hc; rfl)
    have hdrop : (ds ++ '.' :: (fs ++ tail)).dropWhile Char.isDigit = '.' :: (fs ++ tail) :=
      dropWhile_append_all hdig (fun c hc => by
        simp only [List.head?_cons, Option.some.injEq] at hc
        subst hc; rfl)
    have hftake : (fs ++ tail).takeWhile Char.isDigit = fs :=
      takeWhile_append_all hfdig (fun c hc => (ht c hc).1)
    have hfdrop : (fs ++ tail).dropWhile Char.isDigit = tail :=
      dropWhile_append_all hfdig (fun c hc => (ht c hc).1)
    rw [hassoc]
    simp only [numSplit, htake, hdrop, hftake, hfdrop, hnem, hfnem,
      Bool.false_eq_true, if_false, beq_self_eq_true, if_true]

/-- Inversion of a successful `numSplit`: the number group has the
`\d+(\.\d+)?` shape. -/
theorem numSplit_isUNum {l num r : List Char}
    (h : numSplit l = some (num, r)) : IsUNum num := by
  have hdig : ∀ c ∈ l.takeWhile Char.isDigit, c.isDigit = true :=
    fun c hc => List.mem_takeWhile_imp hc
  have hfdig : ∀ r2, ∀ c ∈ (r2 : List Char).takeWhile Char.isDigit, c.isDigit = true :=
    fun r2 c hc => List.mem_takeWhile_imp hc
  simp only [numSplit] at h
  split at h
  · exact absurd h (by simp)
  · rename_i hts
    have htne : l.takeWhile Char.isDigit ≠ [] := by
      simpa [List.isEmpty_iff] using hts
    split at h
    · rename_i c r2 hd
      split at h
      · rename_i hdot
        split at h
        · simp only [Option.some.injEq, Prod.mk.injEq] at h
          exact ⟨l.takeWhile Char.isDigit, [], htne, hdig, Or.inl h.1.symm⟩
        · rename_i hfs
          simp only [Option.some.injEq, Prod.mk.injEq] at h
          refine ⟨l.takeWhile Char.isDigit, r2.takeWhile Char.isDigit, htne, hdig,
            Or.inr ⟨by simpa [List.isEmpty_iff] using hfs, hfdig r2, ?_⟩⟩
          rw [← h.1]
          have hcd : c = '.' := by simpa using hdot
          rw [hcd]
      · simp only [Option.some.injEq, Prod.mk.injEq] at h
        exact ⟨l.takeWhile Char.isDigit, [], htne, hdig, Or.inl h.1.symm⟩
    · simp only [Option.some.injEq, Prod.mk.injEq] at h
      exact ⟨l.takeWhile Char.isDigit, [], htne, hdig, Or.inl h.1.symm⟩

/-- Inversion of `isCCC`. -/
theorem isCCC_shape {l : List Char} (h : isCCC l = true) :
    ∃ a b c, l = [a, b, c] ∧ a.isUpper = true ∧ b.isUpper = true ∧ c.isUpper = true := by
  match l, h with
  | [a, b, c], h =>
    simp only [isCCC, Bool.and_eq_true] at h
    exact ⟨a, b, c, rfl, h.1.1, h.1.2, h.2⟩

/-- Inversion of `isCCCPair`. -/
theorem isCCCPair_shape {l : List Char} (h : isCCCPair l = true) :
    ∃ a b c d e f, l = [a, b, c, '/', d, e, f] ∧
      a.isUpper = true ∧ b.isUpper = true ∧ c.isUpper = true ∧
      d.isUpper = true ∧ e.isUpper = true ∧ f.isUpper = true := by
  match l, h with
  | [a, b, c, s, d, e, f], h =>
    simp only [isCCCPair, Bool.and_eq_true, beq_iff_eq] at h
    exact ⟨a, b, c, d, e, f, by rw [h.1.1.1.2], h.1.1.1.1.1.1, h.1.1.1.1.1.2,
      h.1.1.1.1.2, h.1.1.2, h.1.2, h.2⟩

/-! ### Toolbox: the normalizers -/

/-- Inversion of a successful decimal space-form match. -/
theorem spaceSplitDec_some {l num g : List Char}
    (h : spaceSplitDec l = some (num, g)) : IsUNum num ∧ isCCC g = true := by
  simp only [spaceSplitDec] at h
  split at h
  · exact absurd h (by simp)
  · rename_i p num' r hns
    split at h
    · exact absurd h (by simp)
    · split at h
      · rename_i hccc
        simp only [Option.some.injEq, Prod.mk.injEq] at h
        obtain ⟨h1, h2⟩ := h
        subst h1; subst h2
        exact ⟨numSplit_isUNum hns, hccc⟩
      · exact absurd h (by simp)

/-- Inversion of a successful exchange space-form match. -/
theorem spaceSplitExch_some {l num g : List Char}
    (h : spaceSplitExch l = some (num, g)) : IsUNum num ∧ isCCCPair g = true := by
  simp only [spaceSplitExch] at h
  split at h
  · exact absurd h (by simp)
  · rename_i p num' r hns
    split at h
    · exact absurd h (by simp)
    · split at h
      · rename_i hccc
        simp only [Option.some.injEq, Prod.mk.injEq] at h
        obtain ⟨h1, h2⟩ := h
        subst h1; subst h2
        exact ⟨numSplit_isUNum hns, hccc⟩
      · exact absurd h (by simp)

/-- Reassembling a number group and a currency group around a colon yields a
string accepted by the v1.0 colon regex. -/
theorem matchColonDec_reassemble {num g : List Char} (h : IsUNum num)
    (hg : isCCC g = true) : matchColonDec (num ++ ':' :: g) = true := by
  have hns : numSplit (num ++ ':' :: g) = some (num, ':' :: g) :=
    numSplit_append h (by
      intro c hc
      simp only [List.head?_cons, Option.some.injEq] at hc
      subst hc; exact ⟨rfl, rfl⟩)
  simp only [matchColonDec, hns, colonTailDec, beq_self_eq_true, Bool.true_and]
  exact hg

/-- Exchange version of `matchColonDec_reassemble`. -/
theorem matchColonExch_reassemble {num g : List Char} (h : IsUNum num)
    (hg : isCCCPair g = true) : matchColonExch (num ++ ':' :: g) = true := by
  have hns : numSplit (num ++ ':' :: g) = some (num, ':' :: g) :=
    numSplit_append h (by
      intro c hc
      simp only [List.head?_cons, Option.some.injEq] at hc
      subst hc; exact ⟨rfl, rfl⟩)
  simp only [matchColonExch, hns, colonTailExch, beq_self_eq_true, Bool.true_and]
  exact hg

/-- A list starting with a digit and ending with an uppercase letter is its
own trim. -/
theorem jsTrim_digit_upper {l : List Char}
    (h1 : ∀ c, l.head? = some c → c.isDigit = true)
    (h2 : ∀ c, l.getLast? = some c → c.isUpper = true) : jsTrim l = l :=
  jsTrim_eq_self (fun c hc => digit_not_ws (h1 c hc))
    (fun c hc => upper_not_ws (h2 c hc))

/-- `jsTrim` fixes a reassembled `num:CCC`-style value (the number part is
well-shaped; the tail ends with an uppercase letter). -/
theorem jsTrim_num_append {num tail : List Char} (h : IsUNum num)
    (htail : ∀ c, tail.getLast? = some c → c.isUpper = true) (hne : tail ≠ []) :
    jsTrim (num ++ tail) = num ++ tail := by
  obtain ⟨d, ds', hshape, hd⟩ := IsUNum_head h
  refine jsTrim_digit_upper ?_ ?_
  · intro c hc
    rw [hshape] at hc
    simp only [List.cons_append, List.head?_cons, Option.some.injEq] at hc
    subst hc; exact hd
  · intro c hc
    rw [List.getLast?_append_of_ne_nil num hne] at hc
    exact htail c hc

/-- v1.0 `normalizeDecimal` on a space-separated decimal-with-currency:
the space run is rewritten to a colon. -/
theorem FormatHelperV1.normalizeDecimalL_space {num ws g : List Char} (hn : IsUNum num)
    (hwne : ws ≠ []) (hwall : ∀ c ∈ ws, jsIsWs c = true) (hg : isCCC g = true) :
    FormatHelperV1.normalizeDecimalL (num ++ ws ++ g) = num ++ ':' :: g := by
  obtain ⟨a, b, c, hgsh, ha, hb, hc⟩ := isCCC_shape hg
  cases ws with
  | nil => exact absurd rfl hwne
  | cons w ws' =>
  have hw : jsIsWs w = true := hwall w (List.mem_cons_self w ws')
  rw [List.append_assoc]
  have htrim : jsTrim (num ++ ((w :: ws') ++ g)) = num ++ ((w :: ws') ++ g) := by
    refine jsTrim_num_append hn ?_ (by simp)
    intro x hx
    rw [List.getLast?_append_of_ne_nil (w :: ws') (by rw [hgsh]; simp)] at hx
    rw [hgsh] at hx
    simp only [List.getLast?_cons_cons, List.getLast?_singleton, Option.some.injEq] at hx
    subst hx; exact hc
  have hns : numSplit (num ++ ((w :: ws') ++ g)) = some (num, (w :: ws') ++ g) := by
    refine numSplit_append hn ?_
    intro x hx
    simp only [List.cons_append, List.head?_cons, Option.some.injEq] at hx
    subst hx
    exact ⟨ws_not_digit hw, ws_ne_dot hw⟩
  have hmc : matchColonDec (num ++ ((w :: ws') ++ g)) = false := by
    simp only [matchColonDec, hns]
    rw [List.cons_append]
    simp [colonTailDec, ws_ne_colon hw]
  have htke : ((w :: ws') ++ g).takeWhile jsIsWs = w :: ws' :=
    takeWhile_append_all hwall (fun x hx => by
      rw [hgsh] at hx
      simp only [List.head?_cons, Option.some.injEq] at hx
      subst hx; exact upper_not_ws ha)
  have hdrp : ((w :: ws') ++ g).dropWhile jsIsWs = g :=
    dropWhile_append_all hwall (fun x hx => by
      rw [hgsh] at hx
      simp only [List.head?_cons, Option.some.injEq] at hx
      subst hx; exact upper_not_ws ha)
  have hss : spaceSplitDec (num ++ ((w :: ws') ++ g)) = some (num, g) := by
    simp only [spaceSplitDec, hns, htke, hdrp, List.isEmpty_cons, Bool.false_eq_true,
      if_false, hg, if_true]
  simp only [FormatHelperV1.normalizeDecimalL, htrim, hmc, Bool.false_eq_true, if_false, hss]

/-- v1.0 `normalizeExchange` on a space-separated exchange rate: the space
run is rewritten to a colon. -/
theorem FormatHelperV1.normalizeExchangeL_space {num ws g : List Char} (hn : IsUNum num)
    (hwne : ws ≠ []) (hwall : ∀ c ∈ ws, jsIsWs c = true) (hg : isCCCPair g = true) :
    FormatHelperV1.normalizeExchangeL (num ++ ws ++ g) = num ++ ':' :: g := by
  obtain ⟨a, b, c, d, e, f, hgsh, ha, hb, hc, hd, he, hf⟩ := isCCCPair_shape hg
  cases ws with
  | nil => exact absurd rfl hwne
  | cons w ws' =>
  have hw : jsIsWs w = true := hwall w (List.mem_cons_self w ws')
  rw [List.append_assoc]
  have htrim : jsTrim (num ++ ((w :: ws') ++ g)) = num ++ ((w :: ws') ++ g) := by
    refine jsTrim_num_append hn ?_ (by simp)
    intro x hx
    rw [List.getLast?_append_of_ne_nil (w :: ws') (by rw [hgsh]; simp)] at hx
    rw [hgsh] at hx
    simp only [List.getLast?_cons_cons, List.getLast?_singleton, Option.some.injEq] at hx
    subst hx; exact hf
  have hns : numSplit (num ++ ((w :: ws') ++ g)) = some (num, (w :: ws') ++ g) := by
    refine numSplit_append hn ?_
    intro x hx
    simp only [List.cons_append, List.head?_cons, Option.some.injEq] at hx
    subst hx
    exact ⟨ws_not_digit hw, ws_ne_dot hw⟩
  have hmc : matchColonExch (num ++ ((w :: ws') ++ g)) = false := by
    simp only [matchColonExch, hns]
    rw [List.cons_append]
    simp [colonTailExch, ws_ne_colon hw]
  have htke : ((w :: ws') ++ g).takeWhile jsIsWs = w :: ws' :=
    takeWhile_append_all hwall (fun x hx => by
      rw [hgsh] at hx
      simp only [List.head?_cons, Option.some.injEq] at hx
      subst hx; exact upper_not_ws ha)
  have hdrp : ((w :: ws') ++ g).dropWhile jsIsWs = g :=
    dropWhile_append_all hwall (fun x hx => by
      rw [hgsh] at hx
      simp only [List.head?_cons, Option.some.injEq] at hx
      subst hx; exact upper_not_ws ha)
  have hss : spaceSplitExch (num ++ ((w :: ws') ++ g)) = some (num, g) := by
    simp only [spaceSplitExch, hns, htke, hdrp, List.isEmpty_cons, Bool.false_eq_true,
      if_false, hg, if_true]
  simp only [FormatHelperV1.normalizeExchangeL, htrim, hmc, Bool.false_eq_true, if_false, hss]

/-- v1.0 `normalizeDecimal` is idempotent, and every output is either in
colon form or the trimmed input. -/
theorem FormatHelperV1.normalizeDecimalL_idem_shape (l : List Char) :
    FormatHelperV1.normalizeDecimalL (FormatHelperV1.normalizeDecimalL l) = FormatHelperV1.normalizeDecimalL l ∧
      (matchColonDec (FormatHelperV1.normalizeDecimalL l) = true ∨ FormatHelperV1.normalizeDecimalL l = jsTrim l) := by
  by_cases hm : matchColonDec (jsTrim l) = true
  · have hout : FormatHelperV1.normalizeDecimalL l = jsTrim l := by
      simp only [FormatHelperV1.normalizeDecimalL, hm, if_true]
    refine ⟨?_, Or.inr hout⟩
    rw [hout]
    simp only [FormatHelperV1.normalizeDecimalL, jsTrim_idem, hm, if_true]
  · have hmf : matchColonDec (jsTrim l) = false := by
      revert hm; cases matchColonDec (jsTrim l) <;> simp
    cases hs : spaceSplitDec (jsTrim l) with
    | none =>
      have hout : FormatHelperV1.normalizeDecimalL l = jsTrim l := by
        simp only [FormatHelperV1.normalizeDecimalL, hmf, Bool.false_eq_true, if_false, hs]
      refine ⟨?_, Or.inr hout⟩
      rw [hout]
      simp only [FormatHelperV1.normalizeDecimalL, jsTrim_idem, hmf, Bool.false_eq_true, if_false, hs]
    | some p =>
      obtain ⟨num, g⟩ := p
      obtain ⟨hn, hg⟩ := spaceSplitDec_some hs
      obtain ⟨a, b, c, hgsh, ha, hb, hc⟩ := isCCC_shape hg
      have hout : FormatHelperV1.normalizeDecimalL l = num ++ ':' :: g := by
        simp only [FormatHelperV1.normalizeDecimalL, hmf, Bool.false_eq_true, if_false, hs]
      have hcol : matchColonDec (num ++ ':' :: g) = true :=
        matchColonDec_reassemble hn hg
      refine ⟨?_, Or.inl (hout ▸ hcol)⟩
      rw [hout]
      have htrim : jsTrim (num ++ ':' :: g) = num ++ ':' :: g := by
        refine jsTrim_num_append hn ?_ (by simp)
        intro x hx
        rw [hgsh] at hx
        simp only [List.getLast?_cons_cons, List.getLast?_singleton, Option.some.injEq] at hx
        subst hx; exact hc
      simp only [FormatHelperV1.normalizeDecimalL, htrim, hcol, if_true]

/-- v1.0 `normalizeExchange` is idempotent, and every output is either in
colon form or the trimmed input. -/
theorem FormatHelperV1.normalizeExchangeL_idem_shape (l : List Char) :
    FormatHelperV1.normalizeExchangeL (FormatHelperV1.normalizeExchangeL l) = FormatHelperV1.normalizeExchangeL l ∧
      (matchColonExch (FormatHelperV1.normalizeExchangeL l) = true ∨ FormatHelperV1.normalizeExchangeL l = jsTrim l) := by
  by_cases hm : matchColonExch (jsTrim l) = true
  · have hout : FormatHelperV1.normalizeExchangeL l = jsTrim l := by
      simp only [FormatHelperV1.normalizeExchangeL, hm, if_true]
    refine ⟨?_, Or.inr hout⟩
    rw [hout]
    simp only [FormatHelperV1.normalizeExchangeL, jsTrim_idem, hm, if_true]
  · have hmf : matchColonExch (jsTrim l) = false := by
      revert hm; cases matchColonExch (jsTrim l) <;> simp
    cases hs : spaceSplitExch (jsTrim l) with
    | none =>
      have hout : FormatHelperV1.normalizeExchangeL l = jsTrim l := by
        simp only [FormatHelperV1.normalizeExchangeL, hmf, Bool.false_eq_true, if_false, hs]
      refine ⟨?_, Or.inr hout⟩
      rw [hout]
      simp only [FormatHelperV1.normalizeExchangeL, jsTrim_idem, hmf, Bool.false_eq_true, if_false, hs]
    | some p =>
      obtain ⟨num, g⟩ := p
      obtain ⟨hn, hg⟩ := spaceSplitExch_some hs
      obtain ⟨a, b, c, d, e, f, hgsh, ha, hb, hc, hd, he, hf⟩ := isCCCPair_shape hg
      have hout : FormatHelperV1.normalizeExchangeL l = num ++ ':' :: g := by
        simp only [FormatHelperV1.normalizeExchangeL, hmf, Bool.false_eq_true, if_false, hs]
      have hcol : matchColonExch (num ++ ':' :: g) = true :=
        matchColonExch_reassemble hn hg
      refine ⟨?_, Or.inl (hout ▸ hcol)⟩
      rw [hout]
      have htrim : jsTrim (num ++ ':' :: g) = num ++ ':' :: g := by
        refine jsTrim_num_append hn ?_ (by simp)
        intro x hx
        rw [hgsh] at hx
        simp only [List.getLast?_cons_cons, List.getLast?_singleton, Option.some.injEq] at hx
        subst hx; exact hf
      simp only [FormatHelperV1.normalizeExchangeL, htrim, hcol, if_true]

/-! ### Toolbox: sorting and group sums -/

theorem insertDesc_perm (f : α → ℚ) (x : α) (l : List α) :
    (insertDesc f x l).Perm (x :: l) := by
  induction l with
  | nil => exact List.Perm.refl _
  | cons y ys ih =>
    by_cases h : f y ≤ f x
    · simp only [insertDesc, h, if_true]
      exact List.Perm.refl _
    · simp only [insertDesc, h, if_false]
      exact (ih.cons y).trans (List.Perm.swap x y ys)

theorem sortDescBy_perm (f : α → ℚ) (l : List α) :
    (sortDescBy f l).Perm l := by
  induction l with
  | nil => exact List.Perm.refl _
  | cons x xs ih => exact (insertDesc_perm f x (sortDescBy f xs)).trans (ih.cons x)

theorem insertDesc_pairwise (f : α → ℚ) (x : α) {l : List α}
    (h : l.Pairwise (fun a b => f b ≤ f a)) :
    (insertDesc f x l).Pairwise (fun a b => f b ≤ f a) := by
  induction l with
  | nil => simp [insertDesc]
  | cons y ys ih =>
    rw [List.pairwise_cons] at h
    obtain ⟨h1, h2⟩ := h
    by_cases hle : f y ≤ f x
    · simp only [insertDesc, hle, if_true]
      refine List.Pairwise.cons ?_ (List.Pairwise.cons h1 h2)
      intro b hb
      rcases List.mem_cons.mp hb with rfl | hb'
      · exact hle
      · exact le_trans (h1 b hb') hle
    · simp only [insertDesc, hle, if_false]
      refine List.Pairwise.cons ?_ (ih h2)
      intro b hb
      rcases List.mem_cons.mp ((insertDesc_perm f x ys).mem_iff.mp hb) with rfl | hb'
      · exact le_of_lt (lt_of_not_le hle)
      · exact h1 b hb'

theorem sortDescBy_pairwise (f : α → ℚ) (l : List α) :
    (sortDescBy f l).Pairwise (fun a b => f b ≤ f a) := by
  induction l with
  | nil => simp [sortDescBy]
  | cons x xs ih => exact insertDesc_pairwise f x ih

/-- The total of the values of a grouping object. -/
def sumVals (g : List (String × ℚ)) : ℚ := (g.map Prod.snd).sum

theorem upsertAdd_sumVals (g : List (String × ℚ)) (label : String) (v : ℚ) :
    sumVals (upsertAdd g label v) = sumVals g + v := by
  induction g with
  | nil => simp [upsertAdd, sumVals]
  | cons p rest ih =>
    obtain ⟨k, x⟩ := p
    by_cases h : (k == label) = true
    · simp only [upsertAdd, h, if_true, sumVals, List.map_cons, List.sum_cons]
      ring
    · simp only [upsertAdd, h, Bool.false_eq_true, if_false, sumVals, List.map_cons,
        List.sum_cons] at *
      rw [ih]; ring

theorem buildGroups_sumVals (cm : JVal) (gk vk : String) (items : List JVal) :
    sumVals (buildGroups cm gk vk items) =
      (items.map (fun it => (parseFloatO (getAttr it vk)).getD 0)).sum := by
  suffices h : ∀ g0 : List (String × ℚ),
      sumVals (items.foldl
        (fun grp it =>
          upsertAdd grp (labelOf cm gk it) ((parseFloatO (getAttr it vk)).getD 0)) g0) =
        sumVals g0 + (items.map (fun it => (parseFloatO (getAttr it vk)).getD 0)).sum by
    have := h []
    simpa [buildGroups, sumVals] using this
  induction items with
  | nil => intro g0; simp
  | cons it rest ih =>
    intro g0
    simp only [List.foldl_cons, List.map_cons, List.sum_cons]
    rw [ih, upsertAdd_sumVals]
    ring

/-- Lookup of a label's accumulated value in the grouping object
(`grp[label]`, `undefined` as `none`). -/
def findVal (g : List (String × ℚ)) (lab : String) : Option ℚ :=
  (g.find? (fun p => p.1 == lab)).map Prod.snd

/-- A label's accumulated value, `0` when the label is absent (matching
`if (!grp[label]) grp[label] = 0`). -/
def accVal (g : List (String × ℚ)) (lab : String) : ℚ :=
  (findVal g lab).getD 0

/-- The sum of the parsed `valueKey` over the members of one group: the
items whose classification label is `lab`. -/
def groupTotal (cm : JVal) (gk vk : String) (items : List JVal) (lab : String) : ℚ :=
  ((items.filter (fun x => labelOf cm gk x == lab)).map
    (fun x => (parseFloatO (getAttr x vk)).getD 0)).sum

theorem findVal_upsertAdd_same (g : List (String × ℚ)) (lab : String) (v : ℚ) :
    findVal (upsertAdd g lab v) lab = some ((findVal g lab).getD 0 + v) := by
  induction g with
  | nil => simp [findVal, upsertAdd, List.find?]
  | cons p rest ih =>
    obtain ⟨k, x⟩ := p
    by_cases h : (k == lab) = true
    · have hk : k = lab := by simpa using h
      subst hk
      simp [findVal, upsertAdd, List.find?]
    · have h' : (k == lab) = false := by revert h; cases k == lab <;> simp
      simp only [upsertAdd, h', Bool.false_eq_true, if_false]
      simpa [findVal, List.find?, h'] using ih

theorem findVal_upsertAdd_ne (g : List (String × ℚ)) (lab : String) (v : ℚ)
    (lab' : String) (h : (lab == lab') = false) :
    findVal (upsertAdd g lab v) lab' = findVal g lab' := by
  induction g with
  | nil => simp [findVal, upsertAdd, List.find?, h]
  | cons p rest ih =>
    obtain ⟨k, x⟩ := p
    by_cases h1 : (k == lab) = true
    · have hk : k = lab := by simpa using h1
      subst hk
      simp [findVal, upsertAdd, List.find?, h]
    · have h1' : (k == lab) = false := by revert h1; cases k == lab <;> simp
      simp only [upsertAdd, h1', Bool.false_eq_true, if_false]
      by_cases h2 : (k == lab') = true
      · simp [findVal, List.find?, h2]
      · have h2' : (k == lab') = false := by revert h2; cases k == lab' <;> simp
        simpa [findVal, List.find?, h2'] using ih

theorem accVal_foldl (cm : JVal) (gk vk : String) (items : List JVal) :
    ∀ (g0 : List (String × ℚ)) (lab : String),
      accVal (items.foldl
        (fun grp it =>
          upsertAdd grp (labelOf cm gk it) ((parseFloatO (getAttr it vk)).getD 0)) g0) lab =
        accVal g0 lab + groupTotal cm gk vk items lab := by
  induction items with
  | nil => intro g0 lab; simp [groupTotal]
  | cons it rest ih =>
    intro g0 lab
    simp only [List.foldl_cons]
    rw [ih]
    by_cases h : (labelOf cm gk it == lab) = true
    · have hme : labelOf cm gk it = lab := by simpa using h
      have hstep : accVal (upsertAdd g0 (labelOf cm gk it)
          ((parseFloatO (getAttr it vk)).getD 0)) lab =
          accVal g0 lab + (parseFloatO (getAttr it vk)).getD 0 := by
        rw [hme, accVal, findVal_upsertAdd_same]
        simp [accVal]
      rw [hstep]
      simp only [groupTotal, List.filter_cons, h, if_true, List.map_cons, List.sum_cons]
      simp only [groupTotal] at *
      ring
    · have h' : (labelOf cm gk it == lab) = false := by
        revert h; cases labelOf cm gk it == lab <;> simp
      have hstep : accVal (upsertAdd g0 (labelOf cm gk it)
          ((parseFloatO (getAttr it vk)).getD 0)) lab = accVal g0 lab := by
        rw [accVal, findVal_upsertAdd_ne _ _ _ _ h', accVal]
      rw [hstep]
      simp only [groupTotal, List.filter_cons, h', Bool.false_eq_true, if_false]

/-- The keys of the grouping object are pairwise distinct (JS object keys
are unique). -/
def KeysNodup (g : List (String × ℚ)) : Prop := (g.map Prod.fst).Nodup

theorem keys_upsertAdd_mem (g : List (String × ℚ)) (lab : String) (v : ℚ) :
    ∀ k' ∈ (upsertAdd g lab v).map Prod.fst, k' ∈ g.map Prod.fst ∨ k' = lab := by
  induction g with
  | nil =>
    intro k' hk
    simp only [upsertAdd, List.map_cons, List.map_nil, List.mem_singleton] at hk
    exact Or.inr hk
  | cons p rest ih =>
    obtain ⟨k, x⟩ := p
    intro k' hk
    by_cases h : (k == lab) = true
    · simp only [upsertAdd, h, if_true, List.map_cons, List.mem_cons] at hk
      rcases hk with rfl | hk'
      · exact Or.inl (by simp)
      · exact Or.inl (by simp [hk'])
    · have h' : (k == lab) = false := by revert h; cases k == lab <;> simp
      simp only [upsertAdd, h', Bool.false_eq_true, if_false, List.map_cons,
        List.mem_cons] at hk
      rcases hk with rfl | hk'
      · exact Or.inl (by simp)
      · rcases ih k' hk' with hin | rfl
        · exact Or.inl (by simp [hin])
        · exact Or.inr rfl

theorem keysNodup_upsertAdd (g : List (String × ℚ)) (lab : String) (v : ℚ) :
    KeysNodup g → KeysNodup (upsertAdd g lab v) := by
  induction g with
  | nil => intro _; simp [KeysNodup, upsertAdd]
  | cons p rest ih =>
    obtain ⟨k, x⟩ := p
    intro h
    rw [KeysNodup, List.map_cons, List.nodup_cons] at h
    obtain ⟨hk, hrest⟩ := h
    by_cases hb : (k == lab) = true
    · rw [KeysNodup]
      simp only [upsertAdd, hb, if_true, List.map_cons]
      exact List.nodup_cons.mpr ⟨hk, hrest⟩
    · have hb' : (k == lab) = false := by revert hb; cases k == lab <;> simp
      rw [KeysNodup]
      simp only [upsertAdd, hb', Bool.false_eq_true, if_false, List.map_cons]
      refine List.nodup_cons.mpr ⟨?_, ih hrest⟩
      intro hmem
      rcases keys_upsertAdd_mem rest lab v k hmem with hin | rfl
      · exact hk hin
      · simp at hb'

theorem keysNodup_buildGroups (cm : JVal) (gk vk : String) (items : List JVal) :
    KeysNodup (buildGroups cm gk vk items) := by
  suffices h : ∀ g0 : List (String × ℚ), KeysNodup g0 →
      KeysNodup (items.foldl
        (fun grp it =>
          upsertAdd grp (labelOf cm gk it) ((parseFloatO (getAttr it vk)).getD 0)) g0) from
    h [] (by simp [KeysNodup])
  induction items with
  | nil => intro g0 h; exact h
  | cons it rest ih =>
    intro g0 h
    exact ih _ (keysNodup_upsertAdd _ _ _ h)

theorem findVal_of_mem_nodup (g : List (String × ℚ)) (lab : String) (v : ℚ) :
    KeysNodup g → (lab, v) ∈ g → findVal g lab = some v := by
  induction g with
  | nil => intro _ hm; simp at hm
  | cons p rest ih =>
    obtain ⟨k, x⟩ := p
    intro hn hm
    rw [KeysNodup, List.map_cons, List.nodup_cons] at hn
    obtain ⟨hk, hrest⟩ := hn
    rcases List.mem_cons.mp hm with heq | hm'
    · obtain ⟨rfl, rfl⟩ : lab = k ∧ v = x := by simpa [Prod.ext_iff] using heq
      simp [findVal, List.find?]
    · have hlab : lab ∈ rest.map Prod.fst := List.mem_map.mpr ⟨(lab, v), hm', rfl⟩
      have hkne : (k == lab) = false := by
        cases hbe : k == lab with
        | false => rfl
        | true =>
          have hkl : k = lab := by simpa using hbe
          subst hkl
          exact (hk hlab).elim
      have := ih hrest hm'
      simpa [findVal, List.find?, hkne] using this

/-- Every `(label, value)` pair accumulated by the grouping loop carries
exactly the sum of the parsed `valueKey` over the items classified under
that label. -/
theorem buildGroups_perGroup (cm : JVal) (gk vk : String) (items : List JVal)
    (lab : String) (v : ℚ) (hmem : (lab, v) ∈ buildGroups cm gk vk items) :
    v = groupTotal cm gk vk items lab := by
  have hf := findVal_of_mem_nodup _ _ _ (keysNodup_buildGroups cm gk vk items) hmem
  have hacc2 : accVal (buildGroups cm gk vk items) lab =
      groupTotal cm gk vk items lab := by
    simp only [buildGroups]
    rw [accVal_foldl cm gk vk items [] lab]
    simp [accVal, findVal]
  have hv : accVal (buildGroups cm gk vk items) lab = v := by
    rw [accVal, hf]
    rfl
  rw [← hv]
  exact hacc2

/-! ### Toolbox: object updates and the `'%'` derivation -/

theorem getAttr_objSet_same (fields : List (String × JVal)) (k : String) (v : JVal) :
    getAttr (JVal.obj (objSet fields k v)) k = some v := by
  induction fields with
  | nil => simp [objSet, getAttr, List.find?]
  | cons p rest ih =>
    obtain ⟨k1, x⟩ := p
    by_cases h : (k1 == k) = true
    · simp [objSet, h, getAttr, List.find?]
    · have h' : (k1 == k) = false := by revert h; cases k1 == k <;> simp
      simp only [objSet, h', Bool.false_eq_true, if_false]
      simpa [getAttr, List.find?, h'] using ih

theorem getAttr_objSet_ne (fields : List (String × JVal)) (k : String) (v : JVal)
    (k' : String) (h : (k == k') = false) :
    getAttr (JVal.obj (objSet fields k v)) k' = getAttr (JVal.obj fields) k' := by
  induction fields with
  | nil => simp [objSet, getAttr, List.find?, h]
  | cons p rest ih =>
    obtain ⟨k1, x⟩ := p
    by_cases h1 : (k1 == k) = true
    · have hk1 : k1 = k := by simpa using h1
      subst hk1
      simp [objSet, getAttr, List.find?, h]
    · have h1' : (k1 == k) = false := by revert h1; cases k1 == k <;> simp
      simp only [objSet, h1', Bool.false_eq_true, if_false]
      by_cases h2 : (k1 == k') = true
      · simp [getAttr, List.find?, h2]
      · have h2' : (k1 == k') = false := by revert h2; cases k1 == k' <;> simp
        simpa [getAttr, List.find?, h2'] using ih

/-- The derived profit-percentage field exactly as the spec words it:
`M/P` divided by `cost_amount`, times 100, rounded to one decimal place,
when both attributes are numbers and `cost_amount` is nonzero; `null`
otherwise. -/
def pctSpec (item : JVal) : JVal :=
  match getAttr item "M/P", getAttr item "cost_amount" with
  | some (JVal.num m), some (JVal.num c) =>
    if c = 0 then JVal.null else JVal.num (round1 (m / c * 100))
  | _, _ => JVal.null

theorem derivePercent_pct (fields : List (String × JVal)) :
    getAttr (derivePercent (JVal.obj fields)) "%" = some (pctSpec (JVal.obj fields)) := by
  cases hmp : getAttr (JVal.obj fields) "M/P" with
  | none => simp [derivePercent, pctSpec, hmp, getAttr_objSet_same]
  | some vm =>
    cases hc : getAttr (JVal.obj fields) "cost_amount" with
    | none => cases vm <;> simp [derivePercent, pctSpec, hmp, hc, getAttr_objSet_same]
    | some vc =>
      cases vm <;> cases vc <;>
        simp only [derivePercent, pctSpec, hmp, hc] <;>
        try simp [getAttr_objSet_same]
      split <;> simp [getAttr_objSet_same]

theorem pctSpec_derivePercent (fields : List (String × JVal)) :
    pctSpec (derivePercent (JVal.obj fields)) = pctSpec (JVal.obj fields) := by
  have hmp : ∀ v, getAttr (JVal.obj (objSet fields "%" v)) "M/P" =
      getAttr (JVal.obj fields) "M/P" :=
    fun v => getAttr_objSet_ne fields "%" v "M/P" (by decide)
  have hcost : ∀ v, getAttr (JVal.obj (objSet fields "%" v)) "cost_amount" =
      getAttr (JVal.obj fields) "cost_amount" :=
    fun v => getAttr_objSet_ne fields "%" v "cost_amount" (by decide)
  cases hm : getAttr (JVal.obj fields) "M/P" with
  | none => simp [derivePercent, pctSpec, hm, hmp, hcost]
  | some vm =>
    cases hcst : getAttr (JVal.obj fields) "cost_amount" with
    | none => cases vm <;> simp [derivePercent, pctSpec, hm, hcst, hmp, hcost]
    | some vc =>
      cases vm <;> cases vc <;>
        simp only [derivePercent, hm, hcst] <;>
        first
        | (split <;> rename_i h0 <;> simp [pctSpec, hmp, hcost, hm, hcst, h0])
        | simp [pctSpec, hmp, hcost, hm, hcst]

theorem derivePercent_pct_self (fields : List (String × JVal)) :
    getAttr (derivePercent (JVal.obj fields)) "%" =
      some (pctSpec (derivePercent (JVal.obj fields))) := by
  rw [pctSpec_derivePercent]
  exact derivePercent_pct fields

/-- `parseItem` always builds an object. -/
theorem parseItem_isObj (symbol details : JVal) :
    ∃ flds, parseItem symbol details = JVal.obj flds :=
  ⟨_, rfl⟩

/-- `parseItemP0` always builds an object. -/
theorem parseItemP0_isObj (symbol details : JVal) :
    ∃ flds, parseItemP0 symbol details = JVal.obj flds :=
  ⟨_, rfl⟩

/-- `part_000`'s `parsePortfolioItems` reaches the `'%'` derivation loop
(equivalently, does not take the array-of-objects passthrough). -/
def p0Derives : JVal → Bool
  | JVal.arr entries =>
    match entries.head? with
    | some (JVal.arr _) => true
    | some _ => false
    | none => true
  | _ => true

theorem parsePortfolioItems_pct (raw : JVal) (items : List JVal)
    (h : parsePortfolioItems raw = Except.ok items) :
    ∀ it ∈ items, getAttr it "%" = some (pctSpec it) := by
  intro it hit
  cases raw with
  | arr entries =>
    simp only [parsePortfolioItems, Except.ok.injEq] at h
    subst h
    obtain ⟨x, hx, rfl⟩ := List.mem_map.mp hit
    obtain ⟨entry, _, hfx⟩ := List.mem_filterMap.mp hx
    have hobj : ∃ flds, x = JVal.obj flds := by
      split at hfx
      · split at hfx
        · simp only [Option.some.injEq] at hfx
          obtain ⟨flds, hfl⟩ := parseItem_isObj _ _
          exact ⟨flds, by rw [← hfx, hfl]⟩
        · exact absurd hfx (by simp)
      · exact absurd hfx (by simp)
    obtain ⟨flds, rfl⟩ := hobj
    exact derivePercent_pct_self flds
  | obj fields =>
    simp only [parsePortfolioItems, Except.ok.injEq] at h
    subst h
    obtain ⟨x, hx, rfl⟩ := List.mem_map.mp hit
    obtain ⟨p, _, rfl⟩ := List.mem_map.mp hx
    exact derivePercent_pct_self _
  | null => exact absurd h (by simp [parsePortfolioItems])
  | num q => simp only [parsePortfolioItems, Except.ok.injEq] at h; subst h; simp at hit
  | str s => simp only [parsePortfolioItems, Except.ok.injEq] at h; subst h; simp at hit
  | bool b => simp only [parsePortfolioItems, Except.ok.injEq] at h; subst h; simp at hit

theorem parsePortfolioItemsP0_pct (raw : JVal) (h : p0Derives raw = true) :
    ∀ it ∈ parsePortfolioItemsP0 raw, getAttr it "%" = some (pctSpec it) := by
  intro it hit
  cases raw with
  | arr entries =>
    cases hh : entries.head? with
    | none =>
      have : entries = [] := by
        cases entries with
        | nil => rfl
        | cons a t => simp at hh
      rw [this] at hit
      simp [parsePortfolioItemsP0] at hit
    | some v =>
      cases v with
      | arr el0 =>
        simp only [parsePortfolioItemsP0, hh] at hit
        obtain ⟨x, hx, rfl⟩ := List.mem_map.mp hit
        obtain ⟨entry, _, hfx⟩ := List.mem_filterMap.mp hx
        have hobj : ∃ flds, x = JVal.obj flds := by
          simp only [tupleEntry] at hfx
          split at hfx
          · split at hfx
            · simp only [Option.some.injEq] at hfx
              obtain ⟨flds, hfl⟩ := parseItemP0_isObj _ _
              exact ⟨flds, by rw [← hfx, hfl]⟩
            · exact absurd hfx (by simp)
          · exact absurd hfx (by simp)
        obtain ⟨flds, rfl⟩ := hobj
        exact derivePercent_pct_self flds
      | num q => simp [p0Derives, hh] at h
      | str s => simp [p0Derives, hh] at h
      | bool b => simp [p0Derives, hh] at h
      | null => simp [p0Derives, hh] at h
      | obj f => simp [p0Derives, hh] at h
  | obj fields =>
    simp only [parsePortfolioItemsP0] at hit
    obtain ⟨x, hx, rfl⟩ := List.mem_map.mp hit
    obtain ⟨p, _, rfl⟩ := List.mem_map.mp hx
    exact derivePercent_pct_self _
  | null => simp [parsePortfolioItemsP0] at hit
  | num q => simp [parsePortfolioItemsP0] at hit
  | str s => simp [parsePortfolioItemsP0] at hit
  | bool b => simp [parsePortfolioItemsP0] at hit

/-! ### Toolbox: credentials and loaders -/

/-- One credential field as the (amended) spec words it: the first
*non-empty* value along the chain URL parameter → local storage → default. -/
def credFieldSpec (urlParams localStorage : List (String × String))
    (k dflt : String) : String :=
  match kvGet urlParams k with
  | some s =>
    if s.isEmpty then
      match kvGet localStorage k with
      | some t => if t.isEmpty then dflt else t
      | none => dflt
    else s
  | none =>
    match kvGet localStorage k with
    | some t => if t.isEmpty then dflt else t
    | none => dflt

theorem jsOrStr_spec (u l : Option String) (d : String) :
    jsOrStr u (jsOrStr l d) =
      match u with
      | some s =>
        if s.isEmpty then
          match l with
          | some t => if t.isEmpty then d else t
          | none => d
        else s
      | none =>
        match l with
        | some t => if t.isEmpty then d else t
        | none => d := by
  cases u <;> cases l <;> simp [jsOrStr]

/-- Some input of `loadConfiguration` failed: a rejected fetch or a failed
JSON parse. -/
def configFetchFails (s m f : Except String Response) : Prop :=
  (∃ e, s = Except.error e) ∨ (∃ e, m = Except.error e) ∨ (∃ e, f = Except.error e) ∨
    (∃ r e, s = Except.ok r ∧ r.body = Except.error e) ∨
    (∃ r e, m = Except.ok r ∧ r.body = Except.error e) ∨
    (∃ r e, f = Except.ok r ∧ r.body = Except.error e)

/-- The translation fetch failed: rejected, non-ok status, or bad JSON. -/
def translationFetchFails (fr : Except String Response) : Prop :=
  (∃ e, fr = Except.error e) ∨ (∃ r, fr = Except.ok r ∧ r.ok = false) ∨
    (∃ r e, fr = Except.ok r ∧ r.body = Except.error e)

theorem loadConfiguration_err (s m f : Except String Response)
    (h : configFetchFails s m f) :
    ∃ e, loadConfiguration s m f = Except.error e := by
  cases s with
  | error e => exact ⟨e, rfl⟩
  | ok rs =>
    cases m with
    | error e => exact ⟨e, rfl⟩
    | ok rm =>
      cases f with
      | error e => exact ⟨e, rfl⟩
      | ok rf =>
        cases hsb : rs.body with
        | error e => exact ⟨e, by simp [loadConfiguration, hsb]⟩
        | ok sj =>
          cases hmb : rm.body with
          | error e => exact ⟨e, by simp [loadConfiguration, hsb, hmb]⟩
          | ok mj =>
            cases hfb : rf.body with
            | error e => exact ⟨e, by simp [loadConfiguration, hsb, hmb, hfb]⟩
            | ok fj =>
              exfalso
              rcases h with ⟨e, he⟩ | ⟨e, he⟩ | ⟨e, he⟩ |
                ⟨r, e, hr, hb⟩ | ⟨r, e, hr, hb⟩ | ⟨r, e, hr, hb⟩
              · cases he
              · cases he
              · cases he
              · injection hr with hr'; rw [← hr', hsb] at hb; cases hb
              · injection hr with hr'; rw [← hr', hmb] at hb; cases hb
              · injection hr with hr'; rw [← hr', hfb] at hb; cases hb

theorem loadTranslationsTM_failure (st : TMState) (lang : String)
    (fr : Except String Response) (h : translationFetchFails fr) :
    loadTranslationsTM st lang fr =
      Except.ok ({ st with translations := JVal.obj [] }, false) := by
  rcases h with ⟨e, rfl⟩ | ⟨r, rfl, hok⟩ | ⟨r, e, rfl, hb⟩
  · rfl
  · simp [loadTranslationsTM, hok]
  · cases hok : r.ok with
    | false => simp [loadTranslationsTM, hok]
    | true => simp [loadTranslationsTM, hok, hb]

/-! ### The claims -/

/-- C1 (corrected): among the documented literal examples, v1.0
`validateDecimal` accepts `"123.45:EUR"` but v2.0 rejects it (v2.0 accepts
the space form `"123.45 EUR"` instead); both revisions accept
`"1.10:EUR/USD"`, `"2024-12-19"` and `"2024-12-19 14:30:00+0100"`. -/
theorem c1_literal_examples_amended :
    FormatHelperV1.validateDecimal "123.45:EUR" = true ∧
    FormatHelperV2.validateDecimal "123.45:EUR" = false ∧
    FormatHelperV2.validateDecimal "123.45 EUR" = true ∧
    FormatHelperV2.validateExchange "1.10:EUR/USD" = true ∧
    FormatHelperV1.validateExchange "1.10:EUR/USD" = true ∧
    FormatHelperV2.validateDate "2024-12-19" = true ∧
    FormatHelperV1.validateDate "2024-12-19" = true ∧
    FormatHelperV2.validateDateTime "2024-12-19 14:30:00+0100" = true ∧
    FormatHelperV1.validateDateTime "2024-12-19 14:30:00+0100" = true := by
  decide

/-- C1 counterexample: the v2.0 `validateDecimal` rejects the documented
example `"123.45:EUR"` (the claim asserts every revision accepts it). -/
theorem c1_counterexample : FormatHelperV2.validateDecimal "123.45:EUR" = false := by
  decide

/-- C2 (confirmed): with a non-empty grouping key, both revisions of
`getGroupedData` return a list whose values sum to the sum of the parsed
`valueKey` attribute over the items passing the zero/invalid filter, each
returned group's value is the sum of the parsed `valueKey` over exactly
its members (the filtered items classified under that group's label), and
the list is sorted by value in descending order.  (`(parseFloatO _).getD 0`
is exactly the parsed attribute on every filtered item, since the filter
discards `NaN`.) -/
theorem c2_grouping_sum_sorted (pd : List JVal) (cm : JVal) (gk vk : String)
    (h : gk ≠ "") :
    ((getGroupedData pd cm gk vk).map Prod.snd).sum =
      ((activeItems pd vk).map (fun x => (parseFloatO (getAttr x vk)).getD 0)).sum ∧
    (∀ lab val, (lab, val) ∈ getGroupedData pd cm gk vk →
      val = groupTotal cm gk vk (activeItems pd vk) lab) ∧
    (getGroupedData pd cm gk vk).Pairwise (fun a b => b.2 ≤ a.2) ∧
    ((getGroupedDataP0 pd cm gk vk).map Prod.snd).sum =
      ((activeItemsP0 pd vk).map (fun x => (parseFloatO (getAttr x vk)).getD 0)).sum ∧
    (∀ lab val, (lab, val) ∈ getGroupedDataP0 pd cm gk vk →
      val = groupTotal cm gk vk (activeItemsP0 pd vk) lab) ∧
    (getGroupedDataP0 pd cm gk vk).Pairwise (fun a b => b.2 ≤ a.2) := by
  have hemp : gk.isEmpty = false := by
    cases hgk : gk.isEmpty with
    | false => rfl
    | true => exact absurd ((String.isEmpty_iff gk).mp hgk) h
  have key : ∀ active : List JVal,
      ((sortDescBy Prod.snd (buildGroups cm gk vk active)).map Prod.snd).sum =
        (active.map (fun x => (parseFloatO (getAttr x vk)).getD 0)).sum ∧
      (∀ lab val, (lab, val) ∈ sortDescBy Prod.snd (buildGroups cm gk vk active) →
        val = groupTotal cm gk vk active lab) ∧
      (sortDescBy Prod.snd (buildGroups cm gk vk active)).Pairwise
        (fun a b => b.2 ≤ a.2) := by
    intro active
    refine ⟨?_, ?_, ?_⟩
    · have hperm := (sortDescBy_perm (Prod.snd) (buildGroups cm gk vk active)).map
        (Prod.snd)
      rw [hperm.sum_eq]
      simpa [sumVals] using buildGroups_sumVals cm gk vk active
    · intro lab val hmem
      exact buildGroups_perGroup cm gk vk active lab val
        ((sortDescBy_perm Prod.snd (buildGroups cm gk vk active)).mem_iff.mp hmem)
    · exact sortDescBy_pairwise Prod.snd _
  have hunf2 : getGroupedData pd cm gk vk =
      sortDescBy Prod.snd (buildGroups cm gk vk (activeItems pd vk)) := by
    simp [getGroupedData, hemp]
  have hunf1 : getGroupedDataP0 pd cm gk vk =
      sortDescBy Prod.snd (buildGroups cm gk vk (activeItemsP0 pd vk)) := by
    simp [getGroupedDataP0, hemp]
  rw [hunf2, hunf1]
  exact ⟨(key _).1, (key _).2.1, (key _).2.2, (key _).1, (key _).2.1, (key _).2.2⟩

/-- Concrete two-item portfolio used to witness C2. -/
def portfolioW : List JVal :=
  [JVal.obj [("id_instrument", JVal.str "A"), ("CTVMKTTQ", JVal.num 5)],
   JVal.obj [("id_instrument", JVal.str "B"), ("CTVMKTTQ", JVal.num 7)]]

/-- Concrete classification map used to witness C2. -/
def classificationW : JVal :=
  JVal.obj [("A", JVal.obj [("asset_class", JVal.str "Bond")]),
    ("B", JVal.obj [("asset_class", JVal.str "Equity")])]

/-- C2 witness: the theorem applied at a concrete two-item portfolio with a
non-empty grouping key. -/
theorem c2_grouping_witness :
    ("asset_class" : String) ≠ "" ∧
    (((getGroupedData portfolioW classificationW "asset_class" "CTVMKTTQ").map
        Prod.snd).sum =
      ((activeItems portfolioW "CTVMKTTQ").map
        (fun x => (parseFloatO (getAttr x "CTVMKTTQ")).getD 0)).sum ∧
      (∀ lab val,
        (lab, val) ∈ getGroupedData portfolioW classificationW "asset_class" "CTVMKTTQ" →
        val = groupTotal classificationW "asset_class" "CTVMKTTQ"
          (activeItems portfolioW "CTVMKTTQ") lab) ∧
      (getGroupedData portfolioW classificationW "asset_class" "CTVMKTTQ").Pairwise
        (fun a b => b.2 ≤ a.2) ∧
      ((getGroupedDataP0 portfolioW classificationW "asset_class" "CTVMKTTQ").map
        Prod.snd).sum =
      ((activeItemsP0 portfolioW "CTVMKTTQ").map
        (fun x => (parseFloatO (getAttr x "CTVMKTTQ")).getD 0)).sum ∧
      (∀ lab val,
        (lab, val) ∈ getGroupedDataP0 portfolioW classificationW "asset_class" "CTVMKTTQ" →
        val = groupTotal classificationW "asset_class" "CTVMKTTQ"
          (activeItemsP0 portfolioW "CTVMKTTQ") lab) ∧
      (getGroupedDataP0 portfolioW classificationW "asset_class" "CTVMKTTQ").Pairwise
        (fun a b => b.2 ≤ a.2)) :=
  ⟨by decide,
   c2_grouping_sum_sorted portfolioW classificationW "asset_class" "CTVMKTTQ"
     (by decide)⟩

/-- C3 (corrected): `getCredentials` selects, for each field, the first
*non-empty* value along the chain URL parameter → local storage → default
(`""` for username, token, filter; `"it_IT"` for language); a URL
parameter present with an empty value is skipped, not returned. -/
theorem c3_credentials_precedence_amended
    (urlParams localStorage : List (String × String)) :
    getCredentials urlParams localStorage =
      { username := credFieldSpec urlParams localStorage "username" ""
      , token := credFieldSpec urlParams localStorage "token" ""
      , language := credFieldSpec urlParams localStorage "language" "it_IT"
      , filter := credFieldSpec urlParams localStorage "filter" "" } := by
  simp only [getCredentials, credFieldSpec, jsOrStr_spec]

/-- C3 counterexample: with `?username=` present (empty value) in the URL
and `"bob"` in storage, the stored value is returned — the URL parameter is
present but its value is not returned. -/
theorem c3_counterexample :
    kvGet [("username", "")] "username" = some "" ∧
    (getCredentials [("username", "")] [("username", "bob")]).username = "bob" ∧
    ("bob" : String) ≠ "" :=
  ⟨rfl, rfl, by decide⟩

/-- C4 (corrected): v2.0 `loadConfiguration` re-throws every failure, but
both translation loaders catch and return normally: the
`TranslationManager` returns `false` after clearing its translations, and
the standalone loader writes an error message into the DOM — neither
re-throws. -/
theorem c4_error_handling_amended :
    (∀ s m f, configFetchFails s m f → ∃ e, loadConfiguration s m f = Except.error e) ∧
    (∀ st lang fr, ∃ p, loadTranslationsTM st lang fr = Except.ok p) ∧
    (∀ st lang fr, translationFetchFails fr →
      loadTranslationsTM st lang fr =
        Except.ok ({ st with translations := JVal.obj [] }, false)) ∧
    (∀ fr, ∃ d, loadTranslationsUtils fr = Except.ok d) :=
  ⟨loadConfiguration_err, fun _ _ _ => ⟨_, rfl⟩, loadTranslationsTM_failure,
    fun _ => ⟨_, rfl⟩⟩

/-- C4 witness: the amended theorem applied at a rejected configuration
fetch and a rejected translation fetch. -/
theorem c4_witness :
    configFetchFails (Except.error "boom")
      (Except.ok { ok := true, status := 200, body := Except.ok JVal.null })
      (Except.ok { ok := true, status := 200, body := Except.ok JVal.null }) ∧
    (∃ e, loadConfiguration (Except.error "boom")
      (Except.ok { ok := true, status := 200, body := Except.ok JVal.null })
      (Except.ok { ok := true, status := 200, body := Except.ok JVal.null }) =
        Except.error e) ∧
    translationFetchFails (Except.error "down") ∧
    loadTranslationsTM { translations := JVal.obj [], currentLang := "en_UK" }
        "fr_FR" (Except.error "down") =
      Except.ok ({ translations := JVal.obj [], currentLang := "en_UK" }, false) :=
  ⟨Or.inl ⟨_, rfl⟩,
   c4_error_handling_amended.1 _ _ _ (Or.inl ⟨_, rfl⟩),
   Or.inl ⟨_, rfl⟩,
   c4_error_handling_amended.2.2.1 _ "fr_FR" _ (Or.inl ⟨_, rfl⟩)⟩

/-- C4 counterexample: on a rejected fetch, `TranslationManager.loadTranslations`
returns normally (`Except.ok (_, false)`) — it does not re-throw. -/
theorem c4_counterexample :
    loadTranslationsTM
        { translations := JVal.obj [("k", JVal.str "v")], currentLang := "en_UK" }
        "it_IT" (Except.error "network down") =
      Except.ok ({ translations := JVal.obj [], currentLang := "en_UK" }, false) :=
  rfl

/-- C5 (confirmed): for every string of the form `<number><whitespace><CCC>`
(`<number>` in the regex language `\d+(\.\d+)?` of the v1.0 `FormatHelper`),
`normalizeDecimal` returns `<number>:<CCC>`, and with a `<CCC>/<CCC>`
currency pair `normalizeExchange` returns `<number>:<CCC>/<CCC>`:
normalization replaces the space separator with a colon. -/
theorem c5_normalize_space_to_colon (num ws g : List Char) (hn : IsUNum num)
    (hwne : ws ≠ []) (hwall : ∀ c ∈ ws, jsIsWs c = true) :
    (isCCC g = true →
      FormatHelperV1.normalizeDecimal (String.mk (num ++ ws ++ g)) =
        String.mk (num ++ ':' :: g)) ∧
    (isCCCPair g = true →
      FormatHelperV1.normalizeExchange (String.mk (num ++ ws ++ g)) =
        String.mk (num ++ ':' :: g)) := by
  constructor
  · intro hg
    exact congrArg String.mk (FormatHelperV1.normalizeDecimalL_space hn hwne hwall hg)
  · intro hg
    exact congrArg String.mk (FormatHelperV1.normalizeExchangeL_space hn hwne hwall hg)

/-- C5 witness: the theorem applied to `"123.45 EUR"` and `"1.10 EUR/USD"`. -/
theorem c5_witness :
    IsUNum ['1', '2', '3', '.', '4', '5'] ∧ IsUNum ['1', '.', '1', '0'] ∧
    ([' '] : List Char) ≠ [] ∧ (∀ c ∈ ([' '] : List Char), jsIsWs c = true) ∧
    isCCC ['E', 'U', 'R'] = true ∧
    isCCCPair ['E', 'U', 'R', '/', 'U', 'S', 'D'] = true ∧
    FormatHelperV1.normalizeDecimal "123.45 EUR" = "123.45:EUR" ∧
    FormatHelperV1.normalizeExchange "1.10 EUR/USD" = "1.10:EUR/USD" :=
  ⟨⟨['1', '2', '3'], ['4', '5'], by decide, by decide,
      Or.inr ⟨by decide, by decide, by decide⟩⟩,
   ⟨['1'], ['1', '0'], by decide, by decide,
      Or.inr ⟨by decide, by decide, by decide⟩⟩,
   by decide, by decide, by decide, by decide,
   (c5_normalize_space_to_colon ['1', '2', '3', '.', '4', '5'] [' '] ['E', 'U', 'R']
      ⟨['1', '2', '3'], ['4', '5'], by decide, by decide,
        Or.inr ⟨by decide, by decide, by decide⟩⟩
      (by decide) (by decide)).1 (by decide),
   (c5_normalize_space_to_colon ['1', '.', '1', '0'] [' ']
      ['E', 'U', 'R', '/', 'U', 'S', 'D']
      ⟨['1'], ['1', '0'], by decide, by decide,
        Or.inr ⟨by decide, by decide, by decide⟩⟩
      (by decide) (by decide)).2 (by decide)⟩

/-- C6 (corrected): an item passes the `part_000` filter exactly when its
parsed `valueKey` is a number different from zero, but the
`dashboard-shared.js` revision keeps exactly the items whose parsed value
is *strictly positive* — negative values are also discarded there. -/
theorem c6_filter_amended (pd : List JVal) (vk : String) (x : JVal) :
    (x ∈ activeItems pd vk ↔
      x ∈ pd ∧ ∃ v, parseFloatO (getAttr x vk) = some v ∧ 0 < v) ∧
    (x ∈ activeItemsP0 pd vk ↔
      x ∈ pd ∧ ∃ v, parseFloatO (getAttr x vk) = some v ∧ v ≠ 0) := by
  constructor
  · rw [activeItems, List.mem_filter]
    cases hp : parseFloatO (getAttr x vk) with
    | none => simp [hp]
    | some v => simp [hp]
  · rw [activeItemsP0, List.mem_filter]
    cases hp : parseFloatO (getAttr x vk) with
    | none => simp [hp]
    | some v => simp [hp]

/-- C6 counterexample: an item whose `CTVMKTTQ` parses to `-1` (a number
different from zero) contributes to neither the filtered list nor the
grouped result of the `dashboard-shared.js` revision. -/
theorem c6_counterexample :
    parseFloatO (getAttr (JVal.obj [("CTVMKTTQ", JVal.num (-1))]) "CTVMKTTQ") =
      some (-1) ∧
    ((-1 : ℚ) ≠ 0) ∧
    activeItems [JVal.obj [("CTVMKTTQ", JVal.num (-1))]] "CTVMKTTQ" = [] ∧
    getGroupedData [JVal.obj [("CTVMKTTQ", JVal.num (-1))]] (JVal.obj [])
      "asset_class" "CTVMKTTQ" = [] :=
  ⟨rfl, by decide, rfl, rfl⟩

/-- C7 (corrected): every item returned by the `dashboard-shared.js`
`parsePortfolioItems` carries the derived `'%'` field (per `pctSpec`), and
so does every item of the `part_000` revision whenever the `'%'` derivation
loop is reached; the `part_000` array-of-objects passthrough, however,
returns the input items unchanged, without deriving `'%'`. -/
theorem c7_percent_amended :
    (∀ raw items, parsePortfolioItems raw = Except.ok items →
      ∀ it ∈ items, getAttr it "%" = some (pctSpec it)) ∧
    (∀ raw, p0Derives raw = true →
      ∀ it ∈ parsePortfolioItemsP0 raw, getAttr it "%" = some (pctSpec it)) :=
  ⟨parsePortfolioItems_pct, parsePortfolioItemsP0_pct⟩

/-- C7 counterexample: an array-of-objects input makes `part_000`'s
`parsePortfolioItems` return the item unchanged, with no `'%'` field at
all, although its `M/P` and nonzero `cost_amount` are numbers. -/
theorem c7_counterexample :
    parsePortfolioItemsP0
        (JVal.arr [JVal.obj [("M/P", JVal.num 10), ("cost_amount", JVal.num 5)]]) =
      [JVal.obj [("M/P", JVal.num 10), ("cost_amount", JVal.num 5)]] ∧
    getAttr (JVal.obj [("M/P", JVal.num 10), ("cost_amount", JVal.num 5)]) "%" =
      none :=
  ⟨rfl, rfl⟩

/-- C7 witness: the amended theorem applied at a one-key object input. -/
theorem c7_witness :
    p0Derives (JVal.obj [("AAPL", JVal.null)]) = true ∧
    getAttr (derivePercent (parseItemP0 (JVal.str "AAPL") JVal.null)) "%" =
      some (pctSpec (derivePercent (parseItemP0 (JVal.str "AAPL") JVal.null))) :=
  ⟨rfl, c7_percent_amended.2 (JVal.obj [("AAPL", JVal.null)]) rfl _
    (List.mem_singleton_self _)⟩

/-- C8 (corrected): the two `FormatHelper` revisions are *not*
interchangeable: each of the two validator pairs disagrees on explicit
inputs — v2.0 accepts space-separated forms that v1.0 rejects, and v1.0
accepts colon forms (or fractions longer than six digits) that v2.0
rejects. -/
theorem c8_revisions_differ_amended :
    FormatHelperV2.validateDecimal "123.45 EUR" ≠
      FormatHelperV1.validateDecimal "123.45 EUR" ∧
    FormatHelperV2.validateDecimal "123.45:EUR" ≠
      FormatHelperV1.validateDecimal "123.45:EUR" ∧
    FormatHelperV2.validateExchange "1.10 EUR/USD" ≠
      FormatHelperV1.validateExchange "1.10 EUR/USD" ∧
    FormatHelperV2.validateExchange "1.1234567:EUR/USD" ≠
      FormatHelperV1.validateExchange "1.1234567:EUR/USD" := by
  decide

/-- C8 counterexample: on `"123.45 EUR"` the v2.0 `validateDecimal` answers
`true` while the v1.0 one answers `false` — the two revisions do not return
the same boolean on every string. -/
theorem c8_counterexample :
    FormatHelperV2.validateDecimal "123.45 EUR" = true ∧
    FormatHelperV1.validateDecimal "123.45 EUR" = false := by
  decide

/-- C9 (corrected): both normalizers are idempotent, and every output is
either already in colon form or the *trimmed* input (the claim's "input
unchanged" fails on inputs with surrounding whitespace). -/
theorem c9_normalize_idempotent_amended (v : String) :
    FormatHelperV1.normalizeDecimal (FormatHelperV1.normalizeDecimal v) =
      FormatHelperV1.normalizeDecimal v ∧
    FormatHelperV1.normalizeExchange (FormatHelperV1.normalizeExchange v) =
      FormatHelperV1.normalizeExchange v ∧
    (matchColonDec (FormatHelperV1.normalizeDecimal v).data = true ∨
      FormatHelperV1.normalizeDecimal v = String.mk (jsTrim v.data)) ∧
    (matchColonExch (FormatHelperV1.normalizeExchange v).data = true ∨
      FormatHelperV1.normalizeExchange v = String.mk (jsTrim v.data)) := by
  have hd := FormatHelperV1.normalizeDecimalL_idem_shape v.data
  have he := FormatHelperV1.normalizeExchangeL_idem_shape v.data
  refine ⟨congrArg String.mk hd.1, congrArg String.mk he.1, ?_, ?_⟩
  · rcases hd.2 with hcol | heq
    · exact Or.inl hcol
    · exact Or.inr (congrArg String.mk heq)
  · rcases he.2 with hcol | heq
    · exact Or.inl hcol
    · exact Or.inr (congrArg String.mk heq)

/-- C9 counterexample: `normalizeDecimal " A"` returns `"A"`, which is
neither in colon form nor the input unchanged — outputs are only ever the
*trimmed* input when no rewrite applies. -/
theorem c9_counterexample :
    FormatHelperV1.normalizeDecimal " A" = "A" ∧
    ("A" : String) ≠ " A" ∧
    matchColonDec ("A".data) = false := by
  refine ⟨?_, by decide, by decide⟩
  decide

/-- C10 (confirmed): the `'%'` derivation divides only under the guard that
`cost_amount` is a nonzero number: whenever every numeric reading of
`cost_amount` is zero (i.e. it is zero or non-numeric), `'%'` is set to
`null`; and whenever `'%'` is not `null`, both operands were numbers,
`cost_amount` was nonzero, and `'%'` is the rounded quotient. -/
theorem c10_percent_division_guarded (fields : List (String × JVal)) :
    ((∀ q : ℚ, getAttr (JVal.obj fields) "cost_amount" = some (JVal.num q) → q = 0) →
      getAttr (derivePercent (JVal.obj fields)) "%" = some JVal.null) ∧
    (getAttr (derivePercent (JVal.obj fields)) "%" ≠ some JVal.null →
      ∃ m c : ℚ, getAttr (JVal.obj fields) "M/P" = some (JVal.num m) ∧
        getAttr (JVal.obj fields) "cost_amount" = some (JVal.num c) ∧ c ≠ 0 ∧
        getAttr (derivePercent (JVal.obj fields)) "%" =
          some (JVal.num (round1 (m / c * 100)))) := by
  have hp := derivePercent_pct fields
  have key : pctSpec (JVal.obj fields) = JVal.null ∨
      ∃ m c : ℚ, getAttr (JVal.obj fields) "M/P" = some (JVal.num m) ∧
        getAttr (JVal.obj fields) "cost_amount" = some (JVal.num c) ∧ c ≠ 0 ∧
        pctSpec (JVal.obj fields) = JVal.num (round1 (m / c * 100)) := by
    simp only [pctSpec]
    split
    · rename_i m c hm hc
      by_cases h0 : c = 0
      · exact Or.inl (by rw [if_pos h0])
      · exact Or.inr ⟨m, c, hm, hc, h0, by rw [if_neg h0]⟩
    · exact Or.inl rfl
  constructor
  · intro h
    rcases key with hnull | ⟨m, c, hm, hc, h0, hval⟩
    · rw [hp, hnull]
    · exact absurd (h c hc) h0
  · intro hne
    rcases key with hnull | ⟨m, c, hm, hc, h0, hval⟩
    · exact absurd (by rw [hp, hnull]) hne
    · exact ⟨m, c, hm, hc, h0, by rw [hp, hval]⟩

/-- C10 witness: the theorem applied at an item with a numeric `M/P` and a
non-numeric `cost_amount` — the `'%'` field comes out `null`. -/
theorem c10_witness :
    (∀ q : ℚ, getAttr (JVal.obj [("M/P", JVal.num 3), ("cost_amount", JVal.str "n-a")])
        "cost_amount" = some (JVal.num q) → q = 0) ∧
    getAttr (derivePercent
        (JVal.obj [("M/P", JVal.num 3), ("cost_amount", JVal.str "n-a")])) "%" =
      some JVal.null := by
  have h : ∀ q : ℚ, getAttr (JVal.obj [("M/P", JVal.num 3), ("cost_amount", JVal.str "n-a")])
      "cost_amount" = some (JVal.num q) → q = 0 := by
    intro q hq
    have hv : getAttr (JVal.obj [("M/P", JVal.num 3), ("cost_amount", JVal.str "n-a")])
        "cost_amount" = some (JVal.str "n-a") := rfl
    rw [hv] at hq
    exact absurd (Option.some.inj hq) (by intro hx; cases hx)
  exact ⟨h, (c10_percent_division_guarded
    [("M/P", JVal.num 3), ("cost_amount", JVal.str "n-a")]).1 h⟩
